import Mathlib

/-
  A shallow embedding of the FreeChatRoom server (src/server.js): the
  connection registry, the room registry with its bounded history replay,
  the broadcast fanout, and the per-event dispatcher.  JS Maps are modelled
  as insertion-ordered lists of entries keyed by the stored object's id
  field; JS Sets of member ids as insertion-ordered duplicate-free lists.
  Mutation of an object obtained from a map (visible through the map in JS)
  is modelled by replacing every entry with the same key.
-/

namespace FreeChatRoom

/-- Snapshot of the sender recorded inside a message (server.js sendMessage /
sendImage): identity, display name, avatar, and whether the sender is the
room's creator, captured at send time. -/
structure Sender where
  id : String
  name : String
  avatar : String
  isCreator : Bool
deriving DecidableEq, Repr

/-- A chat message as stored in a room's history.  Text messages carry no
isImage field in the source; that absence is modelled as isImage = false. -/
structure Message where
  id : String
  content : String
  isImage : Bool
  sender : Sender
  timestamp : Nat
deriving DecidableEq, Repr

/-- One connected client (the object built in the connection handler and
stored in the clients map).  wsOpen models ws.readyState === OPEN. -/
structure Conn where
  id : String
  name : String
  avatar : String
  currentRoom : Option String
  isVerified : Bool
  wsOpen : Bool
deriving DecidableEq, Repr

/-- One chat room.  users models the JS Set of member connection ids
(insertion order, no duplicates); history is the ordered message log. -/
structure Room where
  id : String
  name : String
  creatorId : Option String
  creatorName : String
  isPrivate : Bool
  password : Option String
  users : List String
  history : List Message
deriving DecidableEq, Repr

/-- The whole server state: the rooms map and the clients map (JS Maps keyed
by id, modelled as insertion-ordered entry lists), plus the identity the
default room was created with. -/
structure ServerState where
  rooms : List Room
  clients : List Conn
  defaultRoomId : String
deriving DecidableEq, Repr

/-- JS Set.add: appends the element if absent, otherwise leaves the set. -/
def setAdd (l : List String) (x : String) : List String :=
  if x ∈ l then l else l ++ [x]

/-- JS Set.delete: removes the element. -/
def setDelete (l : List String) (x : String) : List String :=
  l.filter (fun y => y ≠ x)

/-- rooms.get(k). -/
def roomsGet (rs : List Room) (k : String) : Option Room :=
  rs.find? (fun r => r.id == k)

/-- In-place mutation of a room object obtained from rooms.get, as seen
through the map: every entry with the same id is replaced. -/
def roomsUpdate (rs : List Room) (r : Room) : List Room :=
  rs.map (fun x => if x.id == r.id then r else x)

/-- rooms.set(r.id, r): replaces in place when the key exists, appends
otherwise. -/
def roomsSet (rs : List Room) (r : Room) : List Room :=
  if rs.any (fun x => x.id == r.id) then roomsUpdate rs r else rs ++ [r]

/-- rooms.delete(k). -/
def roomsDelete (rs : List Room) (k : String) : List Room :=
  rs.filter (fun r => r.id ≠ k)

/-- clients.get(k). -/
def clientsGet (cs : List Conn) (k : String) : Option Conn :=
  cs.find? (fun c => c.id == k)

/-- In-place mutation of a client object obtained from clients.get, as seen
through the map: every entry with the same id is replaced. -/
def clientsUpdate (cs : List Conn) (c : Conn) : List Conn :=
  cs.map (fun x => if x.id == c.id then c else x)

/-- clients.set(c.id, c). -/
def clientsSet (cs : List Conn) (c : Conn) : List Conn :=
  if cs.any (fun x => x.id == c.id) then clientsUpdate cs c else cs ++ [c]

/-- clients.delete(k). -/
def clientsDelete (cs : List Conn) (k : String) : List Conn :=
  cs.filter (fun c => c.id ≠ k)

/-- JS `opt || d` for an optional string: the empty string is falsy. -/
def jsOr (o : Option String) (d : String) : String :=
  match o with
  | some s => if s = "" then d else s
  | none => d

/-- JS `opt || null`. -/
def jsOrNull (o : Option String) : Option String :=
  match o with
  | some s => if s = "" then none else some s
  | none => none

/-- Whitespace test used by trim. -/
def isWsChar (c : Char) : Bool :=
  c = ' ' ∨ c = '\t' ∨ c = '\n' ∨ c = '\r'

/-- JS String.prototype.trim: strip whitespace from both ends (structural
implementation over the character list). -/
def jsTrim (t : String) : String :=
  ⟨(((t.data.dropWhile isWsChar).reverse.dropWhile isWsChar).reverse)⟩

/-- JS `!!opt` for an optional string. -/
def truthy (o : Option String) : Bool :=
  match o with
  | some s => s ≠ ""
  | none => false

/-- `room.creatorName || '未知'` as used in the room-joined reply and the
room summaries. -/
def displayCreatorName (r : Room) : String :=
  if r.creatorName = "" then "未知" else r.creatorName

/-- JS array.slice(-n): the last n entries (the whole list when it is
shorter), in arrival order. -/
def sliceLast (l : List Message) (n : Nat) : List Message :=
  l.drop (l.length - n)

/-- Room summary as produced for init / room-list broadcasts. -/
structure RoomSummary where
  id : String
  name : String
  creatorId : Option String
  creatorName : String
  isPrivate : Bool
  userCount : Nat
deriving DecidableEq, Repr

/-- The summary sent by sendInitialData / broadcastRoomList. -/
def roomSummary (r : Room) : RoomSummary :=
  { id := r.id, name := r.name, creatorId := r.creatorId,
    creatorName := displayCreatorName r, isPrivate := r.isPrivate,
    userCount := r.users.length }

/-- Every outbound (server to client) event kind of server.js. -/
inductive OutEvent where
  | initEv (rooms : List RoomSummary) (totalUsers : Nat)
  | errorEv (msg code : String)
  | userLeft (uid uname uavatar : String) (userCount : Nat)
  | userJoined (uid uname uavatar : String) (userCount : Nat)
  | roomJoined (roomId roomName : String) (creatorId : Option String)
      (creatorName : String) (isPrivate : Bool) (userCount : Nat)
      (history : List Message)
  | roomList (rooms : List RoomSummary)
  | roomUserCount (roomId : String) (userCount : Nat)
  | onlineCount (count : Nat)
  | roomDeleting (roomId roomName : String)
  | forceLeave (roomId : String)
  | roomDeleted (roomId roomName : String)
  | roomRenamed (roomId oldName newName : String) (creatorId : Option String)
      (creatorName : String)
  | messageEv (m : Message)
  | imageEv (content : String) (sender : Sender)
deriving DecidableEq, Repr

/-- One outbound delivery: the target connection's identity and the event. -/
abbrev Delivery := String × OutEvent

/-- broadcastToRoom(roomId, data, excludeClientId): iterates the room's
member set, skips the excluded id, skips members that are unregistered or
whose socket is not open, delivers to the rest. -/
def broadcastToRoom (s : ServerState) (roomId : String) (ev : OutEvent)
    (excludeClientId : Option String) : List Delivery :=
  match roomsGet s.rooms roomId with
  | none => []
  | some room =>
    room.users.filterMap (fun cid =>
      if some cid = excludeClientId then none
      else
        match clientsGet s.clients cid with
        | some c => if c.wsOpen then some (cid, ev) else none
        | none => none)

/-- broadcastRoomUserCount(roomId). -/
def broadcastRoomUserCount (s : ServerState) (roomId : String) : List Delivery :=
  match roomsGet s.rooms roomId with
  | none => []
  | some room =>
    broadcastToRoom s roomId (.roomUserCount roomId room.users.length) none

/-- broadcastRoomList(): the room-list event to every open client. -/
def broadcastRoomList (s : ServerState) : List Delivery :=
  s.clients.filterMap (fun c =>
    if c.wsOpen then some (c.id, OutEvent.roomList (s.rooms.map roomSummary))
    else none)

/-- updateOnlineCount(): the online-count event to every open client. -/
def updateOnlineCount (s : ServerState) : List Delivery :=
  s.clients.filterMap (fun c =>
    if c.wsOpen then some (c.id, OutEvent.onlineCount s.clients.length)
    else none)

/-- The leave-current-room block shared verbatim by joinRoom and the close
handler: remove the member, notify the old room with user-left, broadcast
the updated member count. -/
def leaveCurrent (s : ServerState) (client : Conn) : ServerState × List Delivery :=
  match client.currentRoom with
  | none => (s, [])
  | some curId =>
    match roomsGet s.rooms curId with
    | none => (s, [])
    | some cur =>
      let cur' := { cur with users := setDelete cur.users client.id }
      let s' := { s with rooms := roomsUpdate s.rooms cur' }
      (s', broadcastToRoom s' curId
             (.userLeft client.id client.name client.avatar cur'.users.length) none
           ++ broadcastRoomUserCount s' curId)

/-- The joining tail of joinRoom, after the checks and the implicit leave:
add the member, set currentRoom, notify the others, reply with metadata plus
the last 50 history entries, broadcast the member count. -/
def doJoin (s : ServerState) (client : Conn) (room : Room) :
    ServerState × Conn × List Delivery :=
  let room1 := { room with users := setAdd room.users client.id }
  let s1 := { s with rooms := roomsUpdate s.rooms room1 }
  let client1 := { client with currentRoom := some room.id }
  let s2 := { s1 with clients := clientsUpdate s1.clients client1 }
  (s2, client1,
    broadcastToRoom s2 room.id
      (.userJoined client.id client.name client.avatar room1.users.length)
      (some client.id)
    ++ [(client.id, OutEvent.roomJoined room.id room1.name room1.creatorId
          (displayCreatorName room1) room1.isPrivate room1.users.length
          (sliceLast room1.history 50))]
    ++ broadcastRoomUserCount s2 room.id)

/-- joinRoom(client, data). -/
def joinRoom (s : ServerState) (client : Conn) (roomId : String)
    (pw : Option String) : ServerState × Conn × List Delivery :=
  match roomsGet s.rooms roomId with
  | none => (s, client, [(client.id, .errorEv "房间不存在" "room-not-found")])
  | some room =>
    if room.isPrivate ∧ room.password ≠ pw then
      (s, client, [(client.id, .errorEv "密码错误" "wrong-password")])
    else
      let p1 := leaveCurrent s client
      let roomA := (roomsGet p1.1.rooms roomId).getD room
      let p2 := doJoin p1.1 client roomA
      (p2.1, p2.2.1, p1.2 ++ p2.2.2)

/-- The room object built by createRoom: fresh server-generated id, name
defaulted when absent or empty, isPrivate and password by JS truthiness. -/
def newRoomOf (client : Conn) (freshRoomId : String)
    (nameArg pw : Option String) : Room :=
  { id := freshRoomId, name := jsOr nameArg "未命名聊天室",
    creatorId := some client.id, creatorName := client.name,
    isPrivate := truthy pw, password := jsOrNull pw,
    users := [], history := [] }

/-- createRoom(client, data): requires a verified client, builds the room
(JS truthiness: an empty-string password counts as absent), broadcasts the
room list, then auto-joins the creator. -/
def createRoom (s : ServerState) (client : Conn) (freshRoomId : String)
    (nameArg : Option String) (pw : Option String) :
    ServerState × Conn × List Delivery :=
  if !client.isVerified then
    (s, client, [(client.id, .errorEv "请先设置用户ID" "unverified-user")])
  else
    let s1 := { s with
      rooms := roomsSet s.rooms (newRoomOf client freshRoomId nameArg pw) }
    let evList := broadcastRoomList s1
    let p := joinRoom s1 client freshRoomId pw
    (p.1, p.2.1, evList ++ p.2.2)

/-- One iteration of deleteRoom's force-removal loop over the member list:
clear the member's currentRoom and send force-leave-room. -/
def forceRemoveStep (roomId : String) (acc : ServerState × List Delivery)
    (uid : String) : ServerState × List Delivery :=
  match clientsGet acc.1.clients uid with
  | none => acc
  | some uc =>
    ({ acc.1 with clients := clientsUpdate acc.1.clients { uc with currentRoom := none } },
     acc.2 ++ [(uid, OutEvent.forceLeave roomId)])

/-- deleteRoom(client, data). -/
def deleteRoom (s : ServerState) (client : Conn) (roomId : String)
    (claimedCreatorId : Option String) : ServerState × Conn × List Delivery :=
  match roomsGet s.rooms roomId with
  | none => (s, client, [(client.id, .errorEv "房间不存在" "room-not-found")])
  | some room =>
    if room.creatorId ≠ claimedCreatorId ∨ room.creatorId ≠ some client.id then
      (s, client, [(client.id, .errorEv "只有房间创建者可删除房间" "not-creator")])
    else if room.id = s.defaultRoomId then
      (s, client, [(client.id, .errorEv "不能删除默认房间" "cannot-delete-default")])
    else
      let evDeleting := broadcastToRoom s roomId (.roomDeleting room.id room.name) none
      let p := room.users.foldl (forceRemoveStep room.id) (s, [])
      let s2 := { p.1 with rooms := roomsDelete p.1.rooms room.id }
      let client1 := (clientsGet s2.clients client.id).getD client
      (s2, client1,
        evDeleting ++ p.2 ++ broadcastRoomList s2
        ++ [(client.id, OutEvent.roomDeleted room.id room.name)])

/-- renameRoom(client, data). -/
def renameRoom (s : ServerState) (client : Conn) (roomId : String)
    (claimedCreatorId : Option String) (newName : Option String) :
    ServerState × List Delivery :=
  match roomsGet s.rooms roomId with
  | none => (s, [(client.id, .errorEv "房间不存在" "room-not-found")])
  | some room =>
    if room.creatorId ≠ claimedCreatorId ∨ room.creatorId ≠ some client.id then
      (s, [(client.id, .errorEv "只有房间创建者可重命名房间" "not-creator")])
    else if jsTrim (jsOr newName "") = "" then
      (s, [(client.id, .errorEv "房间名称不能为空" "empty-name")])
    else
      let nn := jsTrim (jsOr newName "")
      let room' := { room with name := nn, creatorName := client.name }
      let s1 := { s with rooms := roomsUpdate s.rooms room' }
      (s1,
        broadcastToRoom s1 roomId
          (.roomRenamed room.id room.name nn room.creatorId client.name) none
        ++ broadcastRoomList s1
        ++ [(client.id, OutEvent.roomRenamed room.id room.name nn room.creatorId client.name)])

/-- The sender snapshot captured at send time. -/
def senderSnapshot (client : Conn) (room : Room) : Sender :=
  { id := client.id, name := client.name, avatar := client.avatar,
    isCreator := room.creatorId == some client.id }

/-- The message object built by sendMessage: the client-supplied id when it
is truthy, the fresh server uuid otherwise. -/
def textMessage (client : Conn) (room : Room) (msgId : Option String)
    (freshId content : String) (ts : Nat) : Message :=
  { id := jsOr msgId freshId, content := content, isImage := false,
    sender := senderSnapshot client room, timestamp := ts }

/-- The message object built by sendImage: always a fresh server uuid. -/
def imageMessage (client : Conn) (room : Room) (freshId content : String)
    (ts : Nat) : Message :=
  { id := freshId, content := content, isImage := true,
    sender := senderSnapshot client room, timestamp := ts }

/-- sendMessage(client, data): silently dropped when the sender has no
current room or the room no longer exists; otherwise appends to history and
broadcasts to every member, sender included. -/
def sendMessage (s : ServerState) (client : Conn) (msgId : Option String)
    (freshId : String) (content : String) (ts : Nat) :
    ServerState × List Delivery :=
  match client.currentRoom with
  | none => (s, [])
  | some curId =>
    match roomsGet s.rooms curId with
    | none => (s, [])
    | some room =>
      let m := textMessage client room msgId freshId content ts
      let room' := { room with history := room.history ++ [m] }
      let s1 := { s with rooms := roomsUpdate s.rooms room' }
      (s1, broadcastToRoom s1 curId (.messageEv m) none)

/-- sendImage(client, data): same silent drop conditions as sendMessage;
the stored history entry is tagged isImage, the broadcast carries content
and sender snapshot. -/
def sendImage (s : ServerState) (client : Conn) (freshId : String)
    (content : String) (ts : Nat) : ServerState × List Delivery :=
  match client.currentRoom with
  | none => (s, [])
  | some curId =>
    match roomsGet s.rooms curId with
    | none => (s, [])
    | some room =>
      let m := imageMessage client room freshId content ts
      let room' := { room with history := room.history ++ [m] }
      let s1 := { s with rooms := roomsUpdate s.rooms room' }
      (s1, broadcastToRoom s1 curId (.imageEv content (senderSnapshot client room)) none)

/-- The effective identity after a user event: data.id, trimmed, when it is
a nonempty string that trims to nonempty; the old identity otherwise. -/
def effId (client : Conn) (dataId : Option String) : String :=
  match dataId with
  | some i => if jsTrim i = "" then client.id else jsTrim i
  | none => client.id

/-- The user (identity-claim) branch of handleMessage: mutate the connection
object, mark it verified, and when the id changed move the registry entry
from the old key to the new one. -/
def handleUser (s : ServerState) (client : Conn) (dataId : Option String)
    (dataName dataAvatar : String) : ServerState × Conn :=
  let newId := effId client dataId
  let client' := { client with
    id := newId, name := dataName, avatar := dataAvatar, isVerified := true }
  if client.id = newId then
    ({ s with clients := clientsUpdate s.clients client' }, client')
  else
    ({ s with clients := clientsSet (clientsDelete s.clients client.id) client' },
     client')

/-- The ws close handler: leave the current room (if any), then remove the
registry entry and broadcast the online count. -/
def handleClose (s : ServerState) (client : Conn) : ServerState × List Delivery :=
  let p := leaveCurrent s client
  let s2 := { p.1 with clients := clientsDelete p.1.clients client.id }
  (s2, p.2 ++ updateOnlineCount s2)

/-- The default room created at startup (server.js top level), with its
server-generated identity as a parameter. -/
def mkDefaultRoom (rid : String) : Room :=
  { id := rid, name := "公共聊天室", creatorId := none, creatorName := "系统",
    isPrivate := false, password := none, users := [], history := [] }

/-- The state right after startup: only the default room, no clients. -/
def initState (rid : String) : ServerState :=
  { rooms := [mkDefaultRoom rid], clients := [], defaultRoomId := rid }

/-- Inbound events as dispatched by the connection handler and
handleMessage.  Server-generated uuids (the temporary connection id, fresh
room ids, fresh message ids) appear as explicit parameters; the connection a
message comes from is named by its current registry identity. -/
inductive InEvent where
  | connect (tempId : String)
  | userEv (cid : String) (dataId : Option String) (uname uavatar : String)
  | createEv (cid : String) (freshRoomId : String) (nameArg pw : Option String)
  | joinEv (cid : String) (roomId : String) (pw : Option String)
  | msgEv (cid : String) (msgId : Option String) (freshId content : String) (ts : Nat)
  | imgEv (cid : String) (freshId content : String) (ts : Nat)
  | deleteEv (cid : String) (roomId : String) (claimed : Option String)
  | renameEv (cid : String) (roomId : String) (claimed : Option String)
      (newName : Option String)
  | countEv (cid : String)
  | closeEv (cid : String)
deriving DecidableEq, Repr

/-- The new-connection handler's client object (server.js lines 40-47). -/
def freshConn (tempId : String) : Conn :=
  { id := tempId, name := "匿名用户",
    avatar := "https://cdn-icons-png.flaticon.com/512/681/681494.png",
    currentRoom := none, isVerified := false, wsOpen := true }

/-- One inbound event handled to completion: the dispatcher plus the
connection open/close handlers.  Events naming an unregistered connection
are ignored. -/
def step (s : ServerState) (e : InEvent) : ServerState × List Delivery :=
  match e with
  | .connect tempId =>
    let s1 := { s with clients := clientsSet s.clients (freshConn tempId) }
    (s1, updateOnlineCount s1
      ++ [(tempId, OutEvent.initEv (s1.rooms.map roomSummary) s1.clients.length)])
  | .userEv cid dataId n a =>
    match clientsGet s.clients cid with
    | none => (s, [])
    | some client => ((handleUser s client dataId n a).1, [])
  | .createEv cid rid nm pw =>
    match clientsGet s.clients cid with
    | none => (s, [])
    | some client =>
      let p := createRoom s client rid nm pw
      (p.1, p.2.2)
  | .joinEv cid rid pw =>
    match clientsGet s.clients cid with
    | none => (s, [])
    | some client =>
      let p := joinRoom s client rid pw
      (p.1, p.2.2)
  | .msgEv cid mid fid content ts =>
    match clientsGet s.clients cid with
    | none => (s, [])
    | some client => sendMessage s client mid fid content ts
  | .imgEv cid fid content ts =>
    match clientsGet s.clients cid with
    | none => (s, [])
    | some client => sendImage s client fid content ts
  | .deleteEv cid rid claimed =>
    match clientsGet s.clients cid with
    | none => (s, [])
    | some client =>
      let p := deleteRoom s client rid claimed
      (p.1, p.2.2)
  | .renameEv cid rid claimed newName =>
    match clientsGet s.clients cid with
    | none => (s, [])
    | some client => renameRoom s client rid claimed newName
  | .countEv cid =>
    match clientsGet s.clients cid with
    | none => (s, [])
    | some _ => (s, updateOnlineCount s)
  | .closeEv cid =>
    match clientsGet s.clients cid with
    | none => (s, [])
    | some client => handleClose s client

/-- The state reached after a sequence of inbound events. -/
def run (s : ServerState) : List InEvent → ServerState
  | [] => s
  | e :: es => run (step s e).1 es

/-- The spec's membership invariant: every room's member set is a subset of
the identities currently registered in the clients map. -/
def MembersRegistered (s : ServerState) : Prop :=
  ∀ r ∈ s.rooms, ∀ u ∈ r.users, ∃ c ∈ s.clients, c.id = u

instance (s : ServerState) : Decidable (MembersRegistered s) := by
  unfold MembersRegistered; infer_instance

/-- The inductive coherence invariant of the rekey-free system: registry keys
and room ids are duplicate-free, member sets are duplicate-free, and every
member id belongs to a registered connection whose currentRoom is that very
room. -/
def GoodState (s : ServerState) : Prop :=
  (s.clients.map Conn.id).Nodup ∧
  (s.rooms.map Room.id).Nodup ∧
  (∀ r ∈ s.rooms, r.users.Nodup) ∧
  (∀ r ∈ s.rooms, ∀ u ∈ r.users,
    ∃ c ∈ s.clients, c.id = u ∧ c.currentRoom = some r.id)

instance (s : ServerState) : Decidable (GoodState s) := by
  unfold GoodState; infer_instance

/-- Side conditions under which an inbound event is dispatched in this
model: server-generated identities (the temporary connection id of a
connect, the fresh room id of create-room) really are fresh, and a user
event does not change the connection's identity. -/
def stepOK (s : ServerState) : InEvent → Prop
  | .connect tempId => clientsGet s.clients tempId = none
  | .userEv cid dataId _ _ =>
    ∀ c, clientsGet s.clients cid = some c → effId c dataId = c.id
  | .createEv _ rid _ _ =>
    roomsGet s.rooms rid = none ∧ ∀ c ∈ s.clients, c.currentRoom ≠ some rid
  | _ => True

instance (s : ServerState) (e : InEvent) : Decidable (stepOK s e) := by
  unfold stepOK; cases e <;> infer_instance

/-- A verified requester used in concrete scenarios. -/
def aliceConn : Conn :=
  { id := "alice", name := "Alice", avatar := "av", currentRoom := none,
    isVerified := true, wsOpen := true }

/-- A second verified client used in concrete scenarios. -/
def bobConn : Conn :=
  { id := "bob", name := "Bob", avatar := "av", currentRoom := none,
    isVerified := true, wsOpen := true }

/-- A private room with a stored password, used in concrete scenarios. -/
def privRoom : Room :=
  { id := "r2", name := "Priv", creatorId := some "alice",
    creatorName := "Alice", isPrivate := true, password := some "secret",
    users := ["alice"], history := [] }

/-- A server state holding the default room and the private room. -/
def sPriv : ServerState :=
  { rooms := [mkDefaultRoom "d", privRoom], clients := [bobConn],
    defaultRoomId := "d" }

/-- A concrete stored message used in scenarios. -/
def msg1 : Message :=
  { id := "m1", content := "hi", isImage := false,
    sender := { id := "alice", name := "Alice", avatar := "av",
                isCreator := true },
    timestamp := 1 }

/-- A second concrete stored message used in scenarios. -/
def msg2 : Message :=
  { id := "m2", content := "there", isImage := false,
    sender := { id := "alice", name := "Alice", avatar := "av",
                isCreator := true },
    timestamp := 2 }

/-- A public room holding two history messages, used in scenarios. -/
def histRoom : Room :=
  { id := "r3", name := "Hist", creatorId := some "alice",
    creatorName := "Alice", isPrivate := false, password := none,
    users := [], history := [msg1, msg2] }

/-- A server state holding the default room and the history room. -/
def sHist : ServerState :=
  { rooms := [mkDefaultRoom "d", histRoom], clients := [bobConn],
    defaultRoomId := "d" }

/-- A connection still under its server-generated temporary id, already a
member of the default room. -/
def tempConn : Conn :=
  { id := "tmp-1", name := "匿名用户", avatar := "av",
    currentRoom := some "d", isVerified := false, wsOpen := true }

/-- A state where tempConn is registered and a member of the default room. -/
def sT : ServerState :=
  { rooms := [{ mkDefaultRoom "d" with users := ["tmp-1"] }],
    clients := [tempConn], defaultRoomId := "d" }

/-- A closed connection, used in the broadcast scenario. -/
def carolConn : Conn :=
  { id := "carol", name := "Carol", avatar := "av",
    currentRoom := some "r4", isVerified := true, wsOpen := false }

/-- A room whose members are alice (open), bob (open), carol (closed) and
dave (not registered). -/
def fanRoom : Room :=
  { id := "r4", name := "Fan", creatorId := some "alice",
    creatorName := "Alice", isPrivate := false, password := none,
    users := ["alice", "bob", "carol", "dave"], history := [] }

/-- The broadcast scenario state. -/
def sFan : ServerState :=
  { rooms := [mkDefaultRoom "d", fanRoom],
    clients := [aliceConn, bobConn, carolConn], defaultRoomId := "d" }

/-- A second room for the switching scenario. -/
def roomA0 : Room :=
  { id := "rA", name := "RoomA", creatorId := some "alice",
    creatorName := "Alice", isPrivate := false, password := none,
    users := ["bob2"], history := [] }

/-- Bob while a member of roomA0. -/
def bob2Conn : Conn :=
  { id := "bob2", name := "Bob", avatar := "av", currentRoom := some "rA",
    isVerified := true, wsOpen := true }

/-- The switching scenario state: bob2 is in roomA0 and joins histRoom. -/
def sSwitch : ServerState :=
  { rooms := [mkDefaultRoom "d", roomA0, histRoom],
    clients := [bob2Conn], defaultRoomId := "d" }

lemma roomsGet_eq_some_id {rs : List Room} {k : String} {r : Room}
    (h : roomsGet rs k = some r) : r.id = k := by
  have hp := List.find?_some h
  simpa using hp

lemma clientsGet_eq_some_id {cs : List Conn} {k : String} {c : Conn}
    (h : clientsGet cs k = some c) : c.id = k := by
  have hp := List.find?_some h
  simpa using hp

lemma clientsGet_mem {cs : List Conn} {k : String} {c : Conn}
    (h : clientsGet cs k = some c) : c ∈ cs :=
  List.mem_of_find?_eq_some h

lemma roomsGet_mem {rs : List Room} {k : String} {r : Room}
    (h : roomsGet rs k = some r) : r ∈ rs :=
  List.mem_of_find?_eq_some h

lemma roomsGet_update_ne {rs : List Room} {r : Room} {k : String}
    (h : r.id ≠ k) : roomsGet (roomsUpdate rs r) k = roomsGet rs k := by
  induction rs with
  | nil => rfl
  | cons a t ih =>
    simp only [roomsUpdate, List.map_cons, roomsGet] at ih ⊢
    by_cases ha : a.id = r.id
    · rw [if_pos (by simp [ha]),
        List.find?_cons_of_neg _ (by simp [h]),
        List.find?_cons_of_neg _ (by simp [ha, h])]
      exact ih
    · rw [if_neg (by simp [ha])]
      by_cases hk : a.id = k
      · rw [List.find?_cons_of_pos _ (by simp [hk]),
          List.find?_cons_of_pos _ (by simp [hk])]
      · rw [List.find?_cons_of_neg _ (by simp [hk]),
          List.find?_cons_of_neg _ (by simp [hk])]
        exact ih

lemma roomsGet_update_self {rs : List Room} {r r0 : Room}
    (h : roomsGet rs r.id = some r0) :
    roomsGet (roomsUpdate rs r) r.id = some r := by
  induction rs with
  | nil => simp [roomsGet] at h
  | cons a t ih =>
    simp only [roomsUpdate, List.map_cons, roomsGet] at h ih ⊢
    by_cases ha : a.id = r.id
    · rw [if_pos (by simp [ha]), List.find?_cons_of_pos _ (by simp)]
    · rw [if_neg (by simp [ha]), List.find?_cons_of_neg _ (by simp [ha])]
      rw [List.find?_cons_of_neg _ (by simp [ha])] at h
      exact ih h

lemma clientsGet_update_ne {cs : List Conn} {c : Conn} {k : String}
    (h : c.id ≠ k) : clientsGet (clientsUpdate cs c) k = clientsGet cs k := by
  induction cs with
  | nil => rfl
  | cons a t ih =>
    simp only [clientsUpdate, List.map_cons, clientsGet] at ih ⊢
    by_cases ha : a.id = c.id
    · rw [if_pos (by simp [ha]),
        List.find?_cons_of_neg _ (by simp [h]),
        List.find?_cons_of_neg _ (by simp [ha, h])]
      exact ih
    · rw [if_neg (by simp [ha])]
      by_cases hk : a.id = k
      · rw [List.find?_cons_of_pos _ (by simp [hk]),
          List.find?_cons_of_pos _ (by simp [hk])]
      · rw [List.find?_cons_of_neg _ (by simp [hk]),
          List.find?_cons_of_neg _ (by simp [hk])]
        exact ih

lemma clientsGet_update_self {cs : List Conn} {c c0 : Conn}
    (h : clientsGet cs c.id = some c0) :
    clientsGet (clientsUpdate cs c) c.id = some c := by
  induction cs with
  | nil => simp [clientsGet] at h
  | cons a t ih =>
    simp only [clientsUpdate, List.map_cons, clientsGet] at h ih ⊢
    by_cases ha : a.id = c.id
    · rw [if_pos (by simp [ha]), List.find?_cons_of_pos _ (by simp)]
    · rw [if_neg (by simp [ha]), List.find?_cons_of_neg _ (by simp [ha])]
      rw [List.find?_cons_of_neg _ (by simp [ha])] at h
      exact ih h

lemma roomsGet_delete_self (rs : List Room) (k : String) :
    roomsGet (roomsDelete rs k) k = none := by
  rw [roomsGet, List.find?_eq_none]
  intro r hr
  have : r.id ≠ k := by
    have := List.of_mem_filter hr
    simpa using this
  simp [this]

lemma roomsGet_delete_ne {rs : List Room} {k k' : String} (h : k' ≠ k) :
    roomsGet (roomsDelete rs k) k' = roomsGet rs k' := by
  induction rs with
  | nil => rfl
  | cons a t ih =>
    simp only [roomsDelete, List.filter_cons, roomsGet] at ih ⊢
    by_cases ha : a.id = k
    · rw [if_neg (by simp [ha]),
        List.find?_cons_of_neg _ (by simp [ha]; exact Ne.symm h)]
      exact ih
    · rw [if_pos (by simp [ha])]
      by_cases hk : a.id = k'
      · rw [List.find?_cons_of_pos _ (by simp [hk]),
          List.find?_cons_of_pos _ (by simp [hk])]
      · rw [List.find?_cons_of_neg _ (by simp [hk]),
          List.find?_cons_of_neg _ (by simp [hk])]
        exact ih

lemma mem_setAdd_self (l : List String) (x : String) : x ∈ setAdd l x := by
  unfold setAdd
  by_cases h : x ∈ l <;> simp [h]

lemma mem_setAdd {l : List String} {x y : String} (h : y ∈ setAdd l x) :
    y ∈ l ∨ y = x := by
  unfold setAdd at h
  by_cases hx : x ∈ l <;> simp [hx] at h
  · exact Or.inl h
  · exact h

lemma setAdd_nodup {l : List String} {x : String} (h : l.Nodup) :
    (setAdd l x).Nodup := by
  unfold setAdd
  by_cases hx : x ∈ l
  · simpa [hx] using h
  · rw [if_neg hx, ← List.concat_eq_append]
    exact List.Nodup.concat hx h

lemma not_mem_setDelete (l : List String) (x : String) : x ∉ setDelete l x := by
  intro h
  have := List.of_mem_filter h
  simp at this

lemma mem_setDelete {l : List String} {x y : String} (h : y ∈ setDelete l x) :
    y ∈ l ∧ y ≠ x := by
  refine ⟨List.mem_of_mem_filter h, ?_⟩
  have := List.of_mem_filter h
  simpa using this

lemma mem_setDelete_of_ne {l : List String} {x y : String} (hy : y ∈ l)
    (h : y ≠ x) : y ∈ setDelete l x := by
  exact List.mem_filter.mpr ⟨hy, by simpa using h⟩

lemma setDelete_nodup {l : List String} {x : String} (h : l.Nodup) :
    (setDelete l x).Nodup := by
  unfold setDelete
  exact List.Nodup.sublist (List.filter_sublist l) h

lemma setDelete_length {l : List String} {x : String} (hnd : l.Nodup)
    (hx : x ∈ l) : (setDelete l x).length + 1 = l.length := by
  induction l with
  | nil => cases hx
  | cons a t ih =>
    rcases List.nodup_cons.mp hnd with ⟨hna, hnt⟩
    by_cases hax : a = x
    · have hfx : setDelete (a :: t) x = t := by
        unfold setDelete
        rw [List.filter_cons, if_neg (by simp [hax])]
        apply List.filter_eq_self.mpr
        intro y hy
        simp only [ne_eq, decide_eq_true_eq]
        intro he
        exact hna (hax ▸ he ▸ hy)
      rw [hfx, List.length_cons]
    · have hxt : x ∈ t := by
        rcases List.mem_cons.mp hx with h | h
        · exact absurd h.symm hax
        · exact h
      unfold setDelete
      rw [List.filter_cons, if_pos (by simpa using hax)]
      have := ih hnt hxt
      unfold setDelete at this
      simp only [List.length_cons]
      omega

lemma sliceLast_length (l : List Message) (n : Nat) :
    (sliceLast l n).length = min l.length n := by
  unfold sliceLast
  rw [List.length_drop]
  omega

lemma sliceLast_suffix (l : List Message) (n : Nat) :
    l.take (l.length - n) ++ sliceLast l n = l := by
  unfold sliceLast
  exact List.take_append_drop _ l

lemma clientsGet_delete_self (cs : List Conn) (k : String) :
    clientsGet (clientsDelete cs k) k = none := by
  rw [clientsGet, List.find?_eq_none]
  intro c hc
  have : c.id ≠ k := by
    have := List.of_mem_filter hc
    simpa using this
  simp [this]

lemma clientsGet_delete_ne {cs : List Conn} {k k' : String} (h : k' ≠ k) :
    clientsGet (clientsDelete cs k) k' = clientsGet cs k' := by
  induction cs with
  | nil => rfl
  | cons a t ih =>
    simp only [clientsDelete, List.filter_cons, clientsGet] at ih ⊢
    by_cases ha : a.id = k
    · rw [if_neg (by simp [ha]),
        List.find?_cons_of_neg _ (by simp [ha]; exact Ne.symm h)]
      exact ih
    · rw [if_pos (by simp [ha])]
      by_cases hk : a.id = k'
      · rw [List.find?_cons_of_pos _ (by simp [hk]),
          List.find?_cons_of_pos _ (by simp [hk])]
      · rw [List.find?_cons_of_neg _ (by simp [hk]),
          List.find?_cons_of_neg _ (by simp [hk])]
        exact ih

lemma clientsGet_isSome_iff_any (cs : List Conn) (k : String) :
    (clientsGet cs k).isSome = cs.any (fun x => x.id == k) := by
  induction cs with
  | nil => rfl
  | cons a t ih =>
    simp only [clientsGet, List.any_cons] at ih ⊢
    by_cases ha : a.id = k
    · rw [List.find?_cons_of_pos _ (by simp [ha])]
      simp [ha]
    · rw [List.find?_cons_of_neg _ (by simp [ha])]
      simp [ha, ih]

lemma clientsGet_append_right {cs : List Conn} {k : String} (c : Conn)
    (h : clientsGet cs k = none) (hc : c.id = k) :
    clientsGet (cs ++ [c]) k = some c := by
  rw [clientsGet, List.find?_append]
  rw [clientsGet] at h
  rw [h, Option.none_or, List.find?_cons_of_pos _ (by simp [hc])]

lemma clientsGet_set_self (cs : List Conn) (c : Conn) :
    clientsGet (clientsSet cs c) c.id = some c := by
  unfold clientsSet
  by_cases h : cs.any (fun x => x.id == c.id)
  · rw [if_pos h]
    have hs : (clientsGet cs c.id).isSome := by
      rw [clientsGet_isSome_iff_any, h]
    rcases Option.isSome_iff_exists.mp hs with ⟨c0, hc0⟩
    exact clientsGet_update_self hc0
  · rw [if_neg h]
    have hn : clientsGet cs c.id = none := by
      rw [← Option.not_isSome_iff_eq_none, clientsGet_isSome_iff_any]
      simpa using h
    exact clientsGet_append_right c hn rfl

lemma clientsGet_set_ne {cs : List Conn} {c : Conn} {k : String}
    (h : c.id ≠ k) : clientsGet (clientsSet cs c) k = clientsGet cs k := by
  unfold clientsSet
  by_cases hb : cs.any (fun x => x.id == c.id)
  · rw [if_pos hb]
    exact clientsGet_update_ne h
  · rw [if_neg hb]
    rw [clientsGet, List.find?_append,
      List.find?_cons_of_neg _ (by simp [h]), clientsGet]
    cases List.find? (fun x => x.id == k) cs <;> rfl

lemma roomsGet_append_right {rs : List Room} {k : String} (r : Room)
    (h : roomsGet rs k = none) (hr : r.id = k) :
    roomsGet (rs ++ [r]) k = some r := by
  rw [roomsGet, List.find?_append]
  rw [roomsGet] at h
  rw [h, Option.none_or, List.find?_cons_of_pos _ (by simp [hr])]

lemma roomsGet_isSome_iff_any (rs : List Room) (k : String) :
    (roomsGet rs k).isSome = rs.any (fun x => x.id == k) := by
  induction rs with
  | nil => rfl
  | cons a t ih =>
    simp only [roomsGet, List.any_cons] at ih ⊢
    by_cases ha : a.id = k
    · rw [List.find?_cons_of_pos _ (by simp [ha])]
      simp [ha]
    · rw [List.find?_cons_of_neg _ (by simp [ha])]
      simp [ha, ih]

lemma roomsSet_of_fresh {rs : List Room} {r : Room}
    (h : roomsGet rs r.id = none) : roomsSet rs r = rs ++ [r] := by
  unfold roomsSet
  rw [if_neg]
  intro hb
  have := roomsGet_isSome_iff_any rs r.id
  rw [h, hb] at this
  simp at this

lemma roomsGet_set_self (rs : List Room) (r : Room) :
    roomsGet (roomsSet rs r) r.id = some r := by
  unfold roomsSet
  by_cases h : rs.any (fun x => x.id == r.id)
  · rw [if_pos h]
    have hs : (roomsGet rs r.id).isSome := by
      rw [roomsGet_isSome_iff_any, h]
    rcases Option.isSome_iff_exists.mp hs with ⟨r0, hr0⟩
    exact roomsGet_update_self hr0
  · rw [if_neg h]
    have hn : roomsGet rs r.id = none := by
      rw [← Option.not_isSome_iff_eq_none, roomsGet_isSome_iff_any]
      simpa using h
    exact roomsGet_append_right r hn rfl

lemma roomsGet_set_ne {rs : List Room} {r : Room} {k : String}
    (h : r.id ≠ k) : roomsGet (roomsSet rs r) k = roomsGet rs k := by
  unfold roomsSet
  by_cases hb : rs.any (fun x => x.id == r.id)
  · rw [if_pos hb]
    exact roomsGet_update_ne h
  · rw [if_neg hb]
    rw [roomsGet, List.find?_append,
      List.find?_cons_of_neg _ (by simp [h]), roomsGet]
    cases List.find? (fun x => x.id == k) rs <;> rfl

lemma roomsGet_of_mem {rs : List Room} (hnd : (rs.map Room.id).Nodup)
    {r : Room} (hr : r ∈ rs) : roomsGet rs r.id = some r := by
  induction rs with
  | nil => cases hr
  | cons a t ih =>
    rw [List.map_cons] at hnd
    rcases List.nodup_cons.mp hnd with ⟨hna, hnt⟩
    rcases List.mem_cons.mp hr with h | h
    · subst h
      rw [roomsGet, List.find?_cons_of_pos _ (by simp)]
    · have hne : ¬ a.id = r.id := by
        intro he
        exact hna (he ▸ List.mem_map_of_mem Room.id h)
      rw [roomsGet, List.find?_cons_of_neg _ (by simp [hne])]
      exact ih hnt h

lemma clientsGet_of_mem {cs : List Conn} (hnd : (cs.map Conn.id).Nodup)
    {c : Conn} (hc : c ∈ cs) : clientsGet cs c.id = some c := by
  induction cs with
  | nil => cases hc
  | cons a t ih =>
    rw [List.map_cons] at hnd
    rcases List.nodup_cons.mp hnd with ⟨hna, hnt⟩
    rcases List.mem_cons.mp hc with h | h
    · subst h
      rw [clientsGet, List.find?_cons_of_pos _ (by simp)]
    · have hne : ¬ a.id = c.id := by
        intro he
        exact hna (he ▸ List.mem_map_of_mem Conn.id h)
      rw [clientsGet, List.find?_cons_of_neg _ (by simp [hne])]
      exact ih hnt h

lemma conn_unique {cs : List Conn} (hnd : (cs.map Conn.id).Nodup)
    {c c' : Conn} (hc : c ∈ cs) (hc' : c' ∈ cs) (hid : c.id = c'.id) :
    c = c' := by
  have h1 := clientsGet_of_mem hnd hc
  have h2 := clientsGet_of_mem hnd hc'
  rw [hid] at h1
  rw [h1] at h2
  exact (Option.some.injEq _ _).mp h2

lemma clientsUpdate_map_id (cs : List Conn) (c : Conn) :
    (clientsUpdate cs c).map Conn.id = cs.map Conn.id := by
  unfold clientsUpdate
  rw [List.map_map]
  apply List.map_congr_left
  intro x _
  by_cases h : x.id = c.id <;> simp [h]

lemma roomsUpdate_map_id (rs : List Room) (r : Room) :
    (roomsUpdate rs r).map Room.id = rs.map Room.id := by
  unfold roomsUpdate
  rw [List.map_map]
  apply List.map_congr_left
  intro x _
  by_cases h : x.id = r.id <;> simp [h]

lemma mem_roomsUpdate {rs : List Room} {r r' : Room}
    (hnd : (rs.map Room.id).Nodup) (h : r' ∈ roomsUpdate rs r) :
    (r' = r ∧ (roomsGet rs r.id).isSome) ∨ (r' ∈ rs ∧ r'.id ≠ r.id) := by
  rcases List.mem_map.mp h with ⟨y, hy, hgy⟩
  by_cases hid : y.id = r.id
  · left
    constructor
    · rw [← hgy]; simp [hid]
    · rw [← hid]
      rw [roomsGet_of_mem hnd hy]
      rfl
  · right
    have hgy2 : y = r' := by
      rw [← hgy, if_neg (by simpa using hid)]
    rw [← hgy2]
    exact ⟨hy, hid⟩

lemma mem_clientsUpdate {cs : List Conn} {c c' : Conn}
    (h : c' ∈ clientsUpdate cs c) :
    c' = c ∨ (c' ∈ cs ∧ c'.id ≠ c.id) := by
  rcases List.mem_map.mp h with ⟨y, hy, hgy⟩
  by_cases hid : y.id = c.id
  · left; rw [← hgy]; simp [hid]
  · right
    have hgy2 : y = c' := by
      rw [← hgy, if_neg (by simpa using hid)]
    rw [← hgy2]
    exact ⟨hy, hid⟩

lemma mem_clientsUpdate_of_ne {cs : List Conn} {c c' : Conn}
    (hc' : c' ∈ cs) (h : c'.id ≠ c.id) : c' ∈ clientsUpdate cs c := by
  unfold clientsUpdate
  have he : (if c'.id == c.id then c else c') = c' := by simp [h]
  exact List.mem_map.mpr ⟨c', hc', he⟩

lemma mem_clientsUpdate_self {cs : List Conn} {c0 : Conn} (c : Conn)
    (hc0 : c0 ∈ cs) (h : c0.id = c.id) : c ∈ clientsUpdate cs c := by
  unfold clientsUpdate
  have he : (if c0.id == c.id then c else c0) = c := by simp [h]
  exact List.mem_map.mpr ⟨c0, hc0, he⟩

lemma leaveCurrent_clients (s : ServerState) (client : Conn) :
    (leaveCurrent s client).1.clients = s.clients := by
  unfold leaveCurrent
  split
  · rfl
  · split
    · rfl
    · rfl

lemma leaveCurrent_default (s : ServerState) (client : Conn) :
    (leaveCurrent s client).1.defaultRoomId = s.defaultRoomId := by
  unfold leaveCurrent
  split
  · rfl
  · split
    · rfl
    · rfl

lemma leaveCurrent_rooms_lookup (s : ServerState) (client : Conn) {k : String}
    {room : Room} (h : roomsGet s.rooms k = some room) :
    roomsGet (leaveCurrent s client).1.rooms k = some room ∨
    roomsGet (leaveCurrent s client).1.rooms k =
      some { room with users := setDelete room.users client.id } := by
  unfold leaveCurrent
  split
  · exact Or.inl h
  · next x curId heq =>
    split
    · exact Or.inl h
    · next y cur hr =>
      have hcurid : cur.id = curId := roomsGet_eq_some_id hr
      by_cases hk : curId = k
      · subst hk
        have hcr : cur = room := by
          rw [h] at hr
          exact ((Option.some.injEq _ _).mp hr).symm
        subst hcr
        right
        have hx : roomsGet s.rooms
            ({ cur with users := setDelete cur.users client.id } : Room).id
            = some cur := by simpa [hcurid] using h
        have := roomsGet_update_self hx
        simpa [hcurid] using this
      · left
        have hx : ({ cur with users := setDelete cur.users client.id } : Room).id
            ≠ k := by simpa [hcurid] using hk
        rw [roomsGet_update_ne hx]
        exact h

lemma doJoin_state (s : ServerState) (client : Conn) (room : Room) :
    (doJoin s client room).1.rooms =
      roomsUpdate s.rooms { room with users := setAdd room.users client.id } ∧
    (doJoin s client room).1.clients =
      clientsUpdate s.clients { client with currentRoom := some room.id } ∧
    (doJoin s client room).1.defaultRoomId = s.defaultRoomId ∧
    (doJoin s client room).2.1 = { client with currentRoom := some room.id } :=
  ⟨rfl, rfl, rfl, rfl⟩

lemma doJoin_events (s : ServerState) (client : Conn) (room : Room) :
    (doJoin s client room).2.2 =
      broadcastToRoom (doJoin s client room).1 room.id
        (.userJoined client.id client.name client.avatar
          (setAdd room.users client.id).length) (some client.id)
      ++ [(client.id, OutEvent.roomJoined room.id room.name room.creatorId
            (displayCreatorName room) room.isPrivate
            (setAdd room.users client.id).length (sliceLast room.history 50))]
      ++ broadcastRoomUserCount (doJoin s client room).1 room.id :=
  rfl

lemma joinRoom_success (s : ServerState) (client : Conn) (rid : String)
    (pw : Option String) (room : Room)
    (hr : roomsGet s.rooms rid = some room)
    (hgate : ¬(room.isPrivate = true ∧ room.password ≠ pw)) :
    ∃ roomA, roomsGet (leaveCurrent s client).1.rooms rid = some roomA ∧
      (roomA = room ∨
        roomA = { room with users := setDelete room.users client.id }) ∧
      joinRoom s client rid pw =
        ((doJoin (leaveCurrent s client).1 client roomA).1,
         (doJoin (leaveCurrent s client).1 client roomA).2.1,
         (leaveCurrent s client).2
           ++ (doJoin (leaveCurrent s client).1 client roomA).2.2) := by
  rcases leaveCurrent_rooms_lookup s client hr with h1 | h1
  · refine ⟨room, h1, Or.inl rfl, ?_⟩
    simp only [joinRoom, hr]
    rw [if_neg hgate]
    simp [h1]
  · refine ⟨_, h1, Or.inr rfl, ?_⟩
    simp only [joinRoom, hr]
    rw [if_neg hgate]
    simp [h1]

/-- C10: a message or image event from a connection whose currentRoom is
unset, or whose currentRoom identity no longer exists in the room registry,
is silently ignored: the state is unchanged (no room history changes) and no
outbound event at all is produced, not even an error to the sender. -/
theorem C10_message_silently_dropped (s : ServerState) (client : Conn)
    (msgId : Option String) (freshId content : String) (ts : Nat)
    (h : client.currentRoom = none ∨
      ∃ rid, client.currentRoom = some rid ∧ roomsGet s.rooms rid = none) :
    sendMessage s client msgId freshId content ts = (s, []) ∧
    sendImage s client freshId content ts = (s, []) := by
  rcases h with h | ⟨rid, h1, h2⟩
  · constructor <;> simp [sendMessage, sendImage, h]
  · constructor <;> simp [sendMessage, sendImage, h1, h2]

/-- C10 witness: a concrete fresh connection with no current room. -/
theorem C10_message_silently_dropped_witness :
    sendMessage (initState "d") (freshConn "t1") none "m1" "hi" 0
      = (initState "d", []) ∧
    sendImage (initState "d") (freshConn "t1") "m2" "pic" 0
      = (initState "d", []) :=
  C10_message_silently_dropped (initState "d") (freshConn "t1") none "m1" "hi" 0
    (Or.inl rfl)

/-- C1 counterexample: on the freshly started server, a delete-room request
for the default room fails with error code not-creator, not
cannot-delete-default, whatever creator identity the requester claims: the
creator check (creatorId null, never equal to the requester's id) fires
before the default-room check. -/
theorem C1_counterexample :
    (deleteRoom (initState "d") aliceConn "d" none).2.2 =
      [("alice", OutEvent.errorEv "只有房间创建者可删除房间" "not-creator")] ∧
    (deleteRoom (initState "d") aliceConn "d" (some "alice")).2.2 =
      [("alice", OutEvent.errorEv "只有房间创建者可删除房间" "not-creator")] ∧
    OutEvent.errorEv "只有房间创建者可删除房间" "not-creator" ≠
      OutEvent.errorEv "不能删除默认房间" "cannot-delete-default" := by
  refine ⟨by decide, by decide, by decide⟩

/-- C1 (amended): for every requester and every claimed creator identity, a
delete-room request targeting a room whose creatorIdentity is null - as the
default room's is - fails with NotCreator (error code not-creator, since no
requester identity equals null), the state is unchanged, and the room is
never removed from the registry. -/
theorem C1_default_delete_always_fails (s : ServerState) (client : Conn)
    (rid : String) (claimed : Option String) (room : Room)
    (hr : roomsGet s.rooms rid = some room) (hc : room.creatorId = none) :
    deleteRoom s client rid claimed =
      (s, client,
        [(client.id, .errorEv "只有房间创建者可删除房间" "not-creator")]) ∧
    roomsGet (deleteRoom s client rid claimed).1.rooms rid = some room ∧
    (mkDefaultRoom rid).creatorId = none := by
  have hni : room.creatorId ≠ some client.id := by simp [hc]
  have he : deleteRoom s client rid claimed =
      (s, client,
        [(client.id, .errorEv "只有房间创建者可删除房间" "not-creator")]) := by
    simp only [deleteRoom, hr]
    rw [if_pos (Or.inr hni)]
  refine ⟨he, ?_, rfl⟩
  rw [he]
  exact hr

/-- C1 witness: the amended theorem applied to the freshly started server. -/
theorem C1_default_delete_always_fails_witness :
    deleteRoom (initState "d") aliceConn "d" (some "alice") =
      (initState "d", aliceConn,
        [("alice", .errorEv "只有房间创建者可删除房间" "not-creator")]) ∧
    roomsGet (deleteRoom (initState "d") aliceConn "d" (some "alice")).1.rooms "d"
      = some (mkDefaultRoom "d") ∧
    (mkDefaultRoom "d").creatorId = none :=
  C1_default_delete_always_fails (initState "d") aliceConn "d" (some "alice")
    (mkDefaultRoom "d") (by decide) (by decide)

/-- C3: for a private room, a join request succeeds if and only if the
supplied password exactly equals the stored password: on a mismatch the
requester receives WrongPassword (wrong-password) and the entire state is
unchanged (the requester's currentRoom keeps its prior value and no member
set changes); on a match the requester's currentRoom becomes the room and
its identity is added to the room's member set. -/
theorem C3_private_join_iff_password (s : ServerState) (client : Conn)
    (rid : String) (pw : Option String) (room : Room)
    (hr : roomsGet s.rooms rid = some room) (hp : room.isPrivate = true) :
    (room.password ≠ pw →
      joinRoom s client rid pw =
        (s, client, [(client.id, .errorEv "密码错误" "wrong-password")])) ∧
    (room.password = pw →
      (joinRoom s client rid pw).2.1.currentRoom = some rid ∧
      ∃ r', roomsGet (joinRoom s client rid pw).1.rooms rid = some r' ∧
        client.id ∈ r'.users) := by
  constructor
  · intro hne
    simp only [joinRoom, hr]
    rw [if_pos ⟨hp, hne⟩]
  · intro hpe
    have hgate : ¬(room.isPrivate = true ∧ room.password ≠ pw) := by
      intro hcon
      exact hcon.2 hpe
    rcases joinRoom_success s client rid pw room hr hgate with
      ⟨roomA, hA, _hAeq, hEq⟩
    have hAid : roomA.id = rid := roomsGet_eq_some_id hA
    rw [hEq]
    constructor
    · rw [(doJoin_state _ client roomA).2.2.2]
      simp [hAid]
    · refine ⟨{ roomA with users := setAdd roomA.users client.id }, ?_, ?_⟩
      · rw [(doJoin_state _ client roomA).1]
        have hx : roomsGet (leaveCurrent s client).1.rooms
            ({ roomA with users := setAdd roomA.users client.id } : Room).id
            = some roomA := by simpa [hAid] using hA
        have := roomsGet_update_self hx
        simpa [hAid] using this
      · exact mem_setAdd_self _ _

/-- C3 witness: Bob joins the private room with the wrong and with the right
password. -/
theorem C3_private_join_iff_password_witness :
    ((privRoom.password ≠ some "nope" →
      joinRoom sPriv bobConn "r2" (some "nope") =
        (sPriv, bobConn, [("bob", .errorEv "密码错误" "wrong-password")])) ∧
    (privRoom.password = some "nope" →
      (joinRoom sPriv bobConn "r2" (some "nope")).2.1.currentRoom = some "r2" ∧
      ∃ r', roomsGet (joinRoom sPriv bobConn "r2" (some "nope")).1.rooms "r2"
          = some r' ∧ "bob" ∈ r'.users)) ∧
    ((privRoom.password ≠ some "secret" →
      joinRoom sPriv bobConn "r2" (some "secret") =
        (sPriv, bobConn, [("bob", .errorEv "密码错误" "wrong-password")])) ∧
    (privRoom.password = some "secret" →
      (joinRoom sPriv bobConn "r2" (some "secret")).2.1.currentRoom = some "r2" ∧
      ∃ r', roomsGet (joinRoom sPriv bobConn "r2" (some "secret")).1.rooms "r2"
          = some r' ∧ "bob" ∈ r'.users)) :=
  ⟨C3_private_join_iff_password sPriv bobConn "r2" (some "nope") privRoom
      (by decide) (by decide),
   C3_private_join_iff_password sPriv bobConn "r2" (some "secret") privRoom
      (by decide) (by decide)⟩

lemma forceRemove_fold_rooms (rid : String) (l : List String)
    (acc : ServerState × List Delivery) :
    (l.foldl (forceRemoveStep rid) acc).1.rooms = acc.1.rooms := by
  induction l generalizing acc with
  | nil => rfl
  | cons a t ih =>
    rw [List.foldl_cons, ih]
    unfold forceRemoveStep
    cases clientsGet acc.1.clients a with
    | none => rfl
    | some uc => rfl

/-- C5: a successful join of a room whose history holds k messages replies
with exactly min(k, 50) history entries, the most recent ones in arrival
order (the take/drop decomposition); the stored history is left unchanged by
the join, and a message send only appends to it, so older entries are
retained but not replayed. -/
theorem C5_history_replay (s : ServerState) (client : Conn) (rid : String)
    (pw : Option String) (room : Room)
    (hr : roomsGet s.rooms rid = some room)
    (hgate : ¬(room.isPrivate = true ∧ room.password ≠ pw)) :
    (∃ r', roomsGet (joinRoom s client rid pw).1.rooms rid = some r' ∧
      r'.history = room.history ∧
      (client.id, OutEvent.roomJoined rid r'.name r'.creatorId
        (displayCreatorName r') r'.isPrivate r'.users.length
        (sliceLast room.history 50)) ∈ (joinRoom s client rid pw).2.2) ∧
    (sliceLast room.history 50).length = min room.history.length 50 ∧
    room.history.take (room.history.length - 50) ++ sliceLast room.history 50
      = room.history ∧
    (∀ c2 : Conn, ∀ msgId : Option String, ∀ freshId content : String,
      ∀ ts : Nat, c2.currentRoom = some rid →
      ∃ m : Message,
        roomsGet (sendMessage s c2 msgId freshId content ts).1.rooms rid
          = some { room with history := room.history ++ [m] }) := by
  have hid : room.id = rid := roomsGet_eq_some_id hr
  subst hid
  refine ⟨?_, sliceLast_length _ _, sliceLast_suffix _ _, ?_⟩
  · rcases joinRoom_success s client room.id pw room hr hgate with
      ⟨roomA, hA, hAeq, hEq⟩
    have hAid : roomA.id = room.id := roomsGet_eq_some_id hA
    rw [hEq]
    refine ⟨{ roomA with users := setAdd roomA.users client.id }, ?_, ?_, ?_⟩
    · rw [(doJoin_state _ client roomA).1]
      have hx : roomsGet (leaveCurrent s client).1.rooms
          ({ roomA with users := setAdd roomA.users client.id } : Room).id
          = some roomA := by simpa [hAid] using hA
      have := roomsGet_update_self hx
      simpa [hAid] using this
    · rcases hAeq with rfl | rfl <;> rfl
    · apply List.mem_append_right
      rw [doJoin_events]
      apply List.mem_append_left
      apply List.mem_append_right
      apply List.mem_singleton.mpr
      rcases hAeq with rfl | rfl <;> rfl
  · intro c2 msgId freshId content ts hcur
    refine ⟨textMessage c2 room msgId freshId content ts, ?_⟩
    simp only [sendMessage, hcur, hr]
    exact roomsGet_update_self (by simpa using hr)

/-- C5 witness: Bob joins a public room holding two history messages. -/
theorem C5_history_replay_witness :
    ((∃ r', roomsGet (joinRoom sHist bobConn "r3" none).1.rooms "r3" = some r' ∧
      r'.history = histRoom.history ∧
      ("bob", OutEvent.roomJoined "r3" r'.name r'.creatorId
        (displayCreatorName r') r'.isPrivate r'.users.length
        (sliceLast histRoom.history 50)) ∈ (joinRoom sHist bobConn "r3" none).2.2) ∧
    (sliceLast histRoom.history 50).length = min histRoom.history.length 50 ∧
    histRoom.history.take (histRoom.history.length - 50)
        ++ sliceLast histRoom.history 50 = histRoom.history ∧
    (∀ c2 : Conn, ∀ msgId : Option String, ∀ freshId content : String,
      ∀ ts : Nat, c2.currentRoom = some "r3" →
      ∃ m : Message,
        roomsGet (sendMessage sHist c2 msgId freshId content ts).1.rooms "r3"
          = some { histRoom with history := histRoom.history ++ [m] })) :=
  C5_history_replay sHist bobConn "r3" none histRoom (by decide) (by decide)

/-- C2: for an existing non-default room, delete and rename succeed if and
only if the requester's connection identity and the caller-supplied claimed
creator identity both equal the room's creatorIdentity; every other
combination fails with NotCreator (not-creator) and leaves the whole state
unchanged. -/
theorem C2_creator_authorization (s : ServerState) (client : Conn)
    (rid : String) (claimed : Option String) (room : Room) (nn : String)
    (hr : roomsGet s.rooms rid = some room) (hnd : rid ≠ s.defaultRoomId)
    (hnn : jsTrim nn ≠ "") :
    ((claimed = room.creatorId ∧ some client.id = room.creatorId) →
      roomsGet (deleteRoom s client rid claimed).1.rooms rid = none) ∧
    (¬(claimed = room.creatorId ∧ some client.id = room.creatorId) →
      deleteRoom s client rid claimed =
        (s, client,
          [(client.id, .errorEv "只有房间创建者可删除房间" "not-creator")])) ∧
    ((claimed = room.creatorId ∧ some client.id = room.creatorId) →
      roomsGet (renameRoom s client rid claimed (some nn)).1.rooms rid =
        some { room with name := jsTrim nn, creatorName := client.name }) ∧
    (¬(claimed = room.creatorId ∧ some client.id = room.creatorId) →
      renameRoom s client rid claimed (some nn) =
        (s, [(client.id, .errorEv "只有房间创建者可重命名房间" "not-creator")])) := by
  have hid : room.id = rid := roomsGet_eq_some_id hr
  subst hid
  have hnne : nn ≠ "" := by
    intro he
    exact hnn (by rw [he]; decide)
  have hj : jsOr (some nn) "" = nn := by simp [jsOr, hnne]
  refine ⟨?_, ?_, ?_, ?_⟩
  · rintro ⟨h1, h2⟩
    simp only [deleteRoom, hr]
    rw [if_neg (by simp [h1, h2]), if_neg hnd]
    exact roomsGet_delete_self _ _
  · intro hno
    simp only [deleteRoom, hr]
    rw [if_pos (by tauto)]
  · rintro ⟨h1, h2⟩
    simp only [renameRoom, hr]
    rw [if_neg (by simp [h1, h2]), if_neg (by rw [hj]; exact hnn), hj]
    have hsh : roomsGet s.rooms
        ({ room with
          name := jsTrim nn, creatorName := client.name } : Room).id
        = some room := hr
    exact roomsGet_update_self hsh
  · intro hno
    simp only [renameRoom, hr]
    rw [if_pos (by tauto)]

/-- C2 witness: Alice, the creator of the private room, with a matching
claimed creator identity. -/
theorem C2_creator_authorization_witness :
    (((some "alice" : Option String) = privRoom.creatorId ∧
        some aliceConn.id = privRoom.creatorId) →
      roomsGet (deleteRoom sPriv aliceConn "r2" (some "alice")).1.rooms "r2"
        = none) ∧
    (¬((some "alice" : Option String) = privRoom.creatorId ∧
        some aliceConn.id = privRoom.creatorId) →
      deleteRoom sPriv aliceConn "r2" (some "alice") =
        (sPriv, aliceConn,
          [("alice", .errorEv "只有房间创建者可删除房间" "not-creator")])) ∧
    (((some "alice" : Option String) = privRoom.creatorId ∧
        some aliceConn.id = privRoom.creatorId) →
      roomsGet (renameRoom sPriv aliceConn "r2" (some "alice")
          (some "Better")).1.rooms "r2" =
        some { privRoom with
          name := jsTrim "Better", creatorName := aliceConn.name }) ∧
    (¬((some "alice" : Option String) = privRoom.creatorId ∧
        some aliceConn.id = privRoom.creatorId) →
      renameRoom sPriv aliceConn "r2" (some "alice") (some "Better") =
        (sPriv, [("alice", .errorEv "只有房间创建者可重命名房间" "not-creator")])) :=
  C2_creator_authorization sPriv aliceConn "r2" (some "alice") privRoom "Better"
    (by decide) (by decide) (by decide)

/-- C8: the identity-claim (user) event rekeys the requesting connection:
it updates that connection's entry (identity key, display name, avatar,
verified flag) and touches no other registry key; the rooms map is
completely unchanged (so a membership recorded under the old identity is
left in place, stale) and the connection's currentRoom keeps its value. -/
theorem C8_rekey_frame (s : ServerState) (client : Conn)
    (dataId : Option String) (dataName dataAvatar : String)
    (hreg : clientsGet s.clients client.id = some client) :
    (handleUser s client dataId dataName dataAvatar).1.rooms = s.rooms ∧
    (handleUser s client dataId dataName dataAvatar).2.currentRoom
      = client.currentRoom ∧
    (handleUser s client dataId dataName dataAvatar).2 =
      { client with
        id := effId client dataId, name := dataName, avatar := dataAvatar,
        isVerified := true } ∧
    clientsGet (handleUser s client dataId dataName dataAvatar).1.clients
        (effId client dataId)
      = some (handleUser s client dataId dataName dataAvatar).2 ∧
    (effId client dataId ≠ client.id →
      clientsGet (handleUser s client dataId dataName dataAvatar).1.clients
        client.id = none) ∧
    (∀ k, k ≠ client.id → k ≠ effId client dataId →
      clientsGet (handleUser s client dataId dataName dataAvatar).1.clients k
        = clientsGet s.clients k) := by
  by_cases hcase : client.id = effId client dataId
  · simp only [handleUser, if_pos hcase]
    refine ⟨trivial, trivial, trivial, ?_, ?_, ?_⟩
    · have hx : clientsGet s.clients
          ({ client with
            id := effId client dataId, name := dataName,
            avatar := dataAvatar, isVerified := true } : Conn).id
          = some client := by
        show clientsGet s.clients (effId client dataId) = some client
        rw [← hcase]
        exact hreg
      exact clientsGet_update_self hx
    · intro hne
      exact absurd hcase.symm hne
    · intro k _hk1 hk2
      exact clientsGet_update_ne (fun he => hk2 he.symm)
  · simp only [handleUser, if_neg hcase]
    refine ⟨trivial, trivial, trivial, ?_, ?_, ?_⟩
    · exact clientsGet_set_self _ _
    · intro _hne
      rw [clientsGet_set_ne (fun he => hcase he.symm)]
      exact clientsGet_delete_self _ _
    · intro k hk1 hk2
      rw [clientsGet_set_ne (fun he => hk2 he.symm)]
      exact clientsGet_delete_ne hk1

/-- C8 witness: Alice, registered under a temporary id, claims the identity
"alice". -/
theorem C8_rekey_frame_witness :
    (handleUser sT tempConn (some "alice") "Alice" "av").1.rooms = sT.rooms ∧
    (handleUser sT tempConn (some "alice") "Alice" "av").2.currentRoom
      = tempConn.currentRoom ∧
    (handleUser sT tempConn (some "alice") "Alice" "av").2 =
      { tempConn with
        id := effId tempConn (some "alice"), name := "Alice", avatar := "av",
        isVerified := true } ∧
    clientsGet (handleUser sT tempConn (some "alice") "Alice" "av").1.clients
        (effId tempConn (some "alice"))
      = some (handleUser sT tempConn (some "alice") "Alice" "av").2 ∧
    (effId tempConn (some "alice") ≠ tempConn.id →
      clientsGet (handleUser sT tempConn (some "alice") "Alice" "av").1.clients
        tempConn.id = none) ∧
    (∀ k, k ≠ tempConn.id → k ≠ effId tempConn (some "alice") →
      clientsGet (handleUser sT tempConn (some "alice") "Alice" "av").1.clients k
        = clientsGet sT.clients k) :=
  C8_rekey_frame sT tempConn (some "alice") "Alice" "av" (by decide)

lemma broadcast_mem {s : ServerState} {rid : String} {ev : OutEvent}
    {ex : Option String} {d : Delivery}
    (hd : d ∈ broadcastToRoom s rid ev ex) :
    ∃ room, roomsGet s.rooms rid = some room ∧ d.1 ∈ room.users ∧ d.2 = ev ∧
      some d.1 ≠ ex ∧
      ∃ c, clientsGet s.clients d.1 = some c ∧ c.wsOpen = true := by
  unfold broadcastToRoom at hd
  split at hd
  · cases hd
  · next y room hroom =>
    rcases List.mem_filterMap.mp hd with ⟨cid, hcid, hg⟩
    by_cases hex : some cid = ex
    · rw [if_pos hex] at hg
      cases hg
    · rw [if_neg hex] at hg
      cases hc : clientsGet s.clients cid with
      | none =>
        rw [hc] at hg
        have hg2 : (none : Option Delivery) = some d := hg
        cases hg2
      | some c =>
        rw [hc] at hg
        have hg2 : (if c.wsOpen = true then some ((cid, ev) : Delivery)
            else none) = some d := hg
        by_cases hw : c.wsOpen
        · rw [if_pos hw] at hg2
          have hdc : ((cid, ev) : Delivery) = d :=
            (Option.some.injEq _ _).mp hg2
          subst hdc
          exact ⟨room, hroom, hcid, rfl, hex, c, hc, hw⟩
        · rw [if_neg hw] at hg2
          cases hg2

lemma filterMap_count_key (g : String → Option Delivery)
    (hg : ∀ z y, g z = some y → y.1 = z)
    {l : List String} (hnd : l.Nodup) {m : String} (hm : m ∈ l)
    {d : Delivery} (hdm : d.1 = m) (hgm : g m = some d) :
    (l.filterMap g).count d = 1 := by
  induction l with
  | nil => cases hm
  | cons a t ih =>
    rcases List.nodup_cons.mp hnd with ⟨hna, hnt⟩
    by_cases ham : a = m
    · subst ham
      rw [List.filterMap_cons, hgm]
      rw [List.count_cons_self]
      have hzero : (t.filterMap g).count d = 0 := by
        rw [List.count_eq_zero]
        intro hmem
        rcases List.mem_filterMap.mp hmem with ⟨z, hz, hgz⟩
        have h1 := hg z d hgz
        have hz2 : z = a := by rw [← h1, hdm]
        exact hna (hz2 ▸ hz)
      rw [hzero]
    · have hmt : m ∈ t := by
        rcases List.mem_cons.mp hm with h | h
        · exact absurd h.symm ham
        · exact h
      rw [List.filterMap_cons]
      cases hga : g a with
      | none => exact ih hnt hmt
      | some dA =>
        have hdA1 : dA.1 = a := hg a dA hga
        have hne : d ≠ dA := by
          intro he
          rw [he] at hdm
          rw [hdm] at hdA1
          exact ham hdA1.symm
        rw [List.count_cons_of_ne hne]
        exact ih hnt hmt

/-- C6: broadcasting an event to a room with excluded identity X delivers it
zero times to X, exactly once to every other member of the room's current
member set whose connection is registered and open, and zero times to
members that are unregistered or whose transport is not open; nothing is
delivered to non-members. -/
theorem C6_broadcast_fanout (s : ServerState) (rid : String) (ev : OutEvent)
    (x : String) (room : Room)
    (hroom : roomsGet s.rooms rid = some room) (hnd : room.users.Nodup) :
    (∀ d ∈ broadcastToRoom s rid ev (some x), d.1 ≠ x) ∧
    (∀ m ∈ room.users, m ≠ x → ∀ c, clientsGet s.clients m = some c →
      c.wsOpen = true →
      (broadcastToRoom s rid ev (some x)).count (m, ev) = 1) ∧
    (∀ m, clientsGet s.clients m = none →
      ∀ e : OutEvent, (m, e) ∉ broadcastToRoom s rid ev (some x)) ∧
    (∀ m c, clientsGet s.clients m = some c → c.wsOpen = false →
      ∀ e : OutEvent, (m, e) ∉ broadcastToRoom s rid ev (some x)) ∧
    (∀ d ∈ broadcastToRoom s rid ev (some x), d.1 ∈ room.users ∧ d.2 = ev) := by
  refine ⟨?_, ?_, ?_, ?_, ?_⟩
  · intro d hd
    rcases broadcast_mem hd with ⟨_, _, _, _, hex, _⟩
    intro he
    exact hex (by rw [he])
  · intro m hm hmx c hc hw
    have : broadcastToRoom s rid ev (some x) =
        room.users.filterMap (fun cid =>
          if some cid = some x then none
          else
            match clientsGet s.clients cid with
            | some c => if c.wsOpen then some (cid, ev) else none
            | none => none) := by
      unfold broadcastToRoom
      rw [hroom]
    rw [this]
    apply filterMap_count_key _ ?_ hnd hm rfl
    · rw [if_neg (by simpa using hmx), hc]
      show (if c.wsOpen = true then some ((m, ev) : Delivery) else none)
        = some (m, ev)
      rw [if_pos hw]
    · intro z y hy
      by_cases hez : some z = some x
      · rw [if_pos hez] at hy
        cases hy
      · rw [if_neg hez] at hy
        cases hcz : clientsGet s.clients z with
        | none =>
          rw [hcz] at hy
          have hy2 : (none : Option Delivery) = some y := hy
          cases hy2
        | some cz =>
          rw [hcz] at hy
          have hy2 : (if cz.wsOpen = true then some ((z, ev) : Delivery)
              else none) = some y := hy
          by_cases hwz : cz.wsOpen
          · rw [if_pos hwz] at hy2
            have := (Option.some.injEq _ _).mp hy2
            rw [← this]
          · rw [if_neg hwz] at hy2
            cases hy2
  · intro m hm e hmem
    rcases broadcast_mem hmem with ⟨room2, _, _, _, _, c, hc, _⟩
    rw [hm] at hc
    cases hc
  · intro m c hc hw e hmem
    rcases broadcast_mem hmem with ⟨room2, _, _, _, _, c2, hc2, hw2⟩
    rw [hc] at hc2
    have : c = c2 := (Option.some.injEq _ _).mp hc2
    rw [← this] at hw2
    rw [hw] at hw2
    cases hw2
  · intro d hd
    rcases broadcast_mem hd with ⟨room2, hroom2, hmem2, hde, _⟩
    rw [hroom] at hroom2
    have : room = room2 := (Option.some.injEq _ _).mp hroom2
    rw [this]
    exact ⟨hmem2, hde⟩

/-- C6 witness: broadcasting to the fan room excluding alice. -/
theorem C6_broadcast_fanout_witness :
    (∀ d ∈ broadcastToRoom sFan "r4" (.onlineCount 3) (some "alice"),
      d.1 ≠ "alice") ∧
    (∀ m ∈ fanRoom.users, m ≠ "alice" →
      ∀ c, clientsGet sFan.clients m = some c → c.wsOpen = true →
      (broadcastToRoom sFan "r4" (.onlineCount 3) (some "alice")).count
        (m, .onlineCount 3) = 1) ∧
    (∀ m, clientsGet sFan.clients m = none →
      ∀ e : OutEvent,
        (m, e) ∉ broadcastToRoom sFan "r4" (.onlineCount 3) (some "alice")) ∧
    (∀ m c, clientsGet sFan.clients m = some c → c.wsOpen = false →
      ∀ e : OutEvent,
        (m, e) ∉ broadcastToRoom sFan "r4" (.onlineCount 3) (some "alice")) ∧
    (∀ d ∈ broadcastToRoom sFan "r4" (.onlineCount 3) (some "alice"),
      d.1 ∈ fanRoom.users ∧ d.2 = .onlineCount 3) :=
  C6_broadcast_fanout sFan "r4" (.onlineCount 3) "alice" fanRoom
    (by decide) (by decide)

lemma truthy_iff (pw : Option String) :
    truthy pw = true ↔ ∃ p, pw = some p ∧ p ≠ "" := by
  cases pw with
  | none => simp [truthy]
  | some p => simp [truthy]

lemma gate_auto (pw : Option String) :
    ¬(truthy pw = true ∧ jsOrNull pw ≠ pw) := by
  rintro ⟨h1, h2⟩
  cases pw with
  | none => simp [truthy] at h1
  | some p =>
    by_cases hp : p = ""
    · simp [truthy, hp] at h1
    · exact h2 (by simp [jsOrNull, hp])

/-- C7 counterexample: a verified client supplies the empty-string password
at create-room; the password was supplied (some "" is not none), yet the
created room has isPrivate = false, refuting "isPrivate is true iff a
password was supplied". -/
theorem C7_counterexample :
    ((roomsGet (createRoom (initState "d") aliceConn "r1" (some "Books")
        (some "")).1.rooms "r1").map Room.isPrivate = some false) ∧
    (some "" ≠ (none : Option String)) ∧
    aliceConn.isVerified = true := by
  refine ⟨by decide, by decide, by decide⟩

/-- C7 (amended): a create-room request from an unverified connection fails
with UnverifiedIdentity (unverified-user) and adds no room; from a verified
connection it adds a room under the fresh server-generated identity whose
isPrivate flag is true iff a nonempty password was supplied (JS truthiness:
an empty-string password counts as no password), and auto-joins the creator,
who receives a room-joined reply with empty history. -/
theorem C7_create_room (s : ServerState) (client : Conn)
    (freshRoomId : String) (nameArg pw : Option String)
    (hfresh : roomsGet s.rooms freshRoomId = none) :
    (client.isVerified = false →
      createRoom s client freshRoomId nameArg pw =
        (s, client,
          [(client.id, .errorEv "请先设置用户ID" "unverified-user")])) ∧
    (client.isVerified = true →
      ∃ r', roomsGet (createRoom s client freshRoomId nameArg pw).1.rooms
          freshRoomId = some r' ∧
        r'.creatorId = some client.id ∧
        r'.creatorName = client.name ∧
        (r'.isPrivate = true ↔ ∃ p, pw = some p ∧ p ≠ "") ∧
        r'.users = [client.id] ∧ r'.history = [] ∧
        (createRoom s client freshRoomId nameArg pw).2.1.currentRoom
          = some freshRoomId ∧
        (client.id, OutEvent.roomJoined freshRoomId r'.name r'.creatorId
            (displayCreatorName r') r'.isPrivate 1 [])
          ∈ (createRoom s client freshRoomId nameArg pw).2.2) := by
  constructor
  · intro hv
    simp [createRoom, hv]
  · intro hv
    have hcr : createRoom s client freshRoomId nameArg pw =
        ((joinRoom { s with
            rooms := roomsSet s.rooms (newRoomOf client freshRoomId nameArg pw) }
            client freshRoomId pw).1,
         (joinRoom { s with
            rooms := roomsSet s.rooms (newRoomOf client freshRoomId nameArg pw) }
            client freshRoomId pw).2.1,
         broadcastRoomList { s with
            rooms := roomsSet s.rooms (newRoomOf client freshRoomId nameArg pw) }
           ++ (joinRoom { s with
            rooms := roomsSet s.rooms (newRoomOf client freshRoomId nameArg pw) }
            client freshRoomId pw).2.2) := by
      unfold createRoom
      rw [hv]
      rfl
    have hlook : roomsGet (roomsSet s.rooms
        (newRoomOf client freshRoomId nameArg pw)) freshRoomId
        = some (newRoomOf client freshRoomId nameArg pw) :=
      roomsGet_set_self _ _
    have hgate : ¬((newRoomOf client freshRoomId nameArg pw).isPrivate = true ∧
        (newRoomOf client freshRoomId nameArg pw).password ≠ pw) :=
      gate_auto pw
    rcases joinRoom_success { s with
        rooms := roomsSet s.rooms (newRoomOf client freshRoomId nameArg pw) }
        client freshRoomId pw (newRoomOf client freshRoomId nameArg pw)
        hlook hgate with ⟨roomA, hA, hAeq, hEq⟩
    have hAn : roomA = newRoomOf client freshRoomId nameArg pw := by
      rcases hAeq with rfl | rfl <;> rfl
    subst hAn
    rw [hcr, hEq]
    refine ⟨{ newRoomOf client freshRoomId nameArg pw with
        users := setAdd (newRoomOf client freshRoomId nameArg pw).users
          client.id }, ?_, rfl, rfl, truthy_iff pw, rfl, rfl, rfl, ?_⟩
    · rw [(doJoin_state _ client _).1]
      exact roomsGet_update_self hA
    · apply List.mem_append_right
      apply List.mem_append_right
      rw [doJoin_events]
      apply List.mem_append_left
      apply List.mem_append_right
      exact List.mem_singleton.mpr rfl

/-- C7 witness: Alice creates a room with a nonempty password on the fresh
server. -/
theorem C7_create_room_witness :
    ((aliceConn.isVerified = false →
      createRoom (initState "d") aliceConn "r1" (some "Books") (some "secret") =
        (initState "d", aliceConn,
          [("alice", .errorEv "请先设置用户ID" "unverified-user")])) ∧
    (aliceConn.isVerified = true →
      ∃ r', roomsGet (createRoom (initState "d") aliceConn "r1" (some "Books")
          (some "secret")).1.rooms "r1" = some r' ∧
        r'.creatorId = some "alice" ∧
        r'.creatorName = "Alice" ∧
        (r'.isPrivate = true ↔
          ∃ p, (some "secret" : Option String) = some p ∧ p ≠ "") ∧
        r'.users = ["alice"] ∧ r'.history = [] ∧
        (createRoom (initState "d") aliceConn "r1" (some "Books")
          (some "secret")).2.1.currentRoom = some "r1" ∧
        ("alice", OutEvent.roomJoined "r1" r'.name r'.creatorId
            (displayCreatorName r') r'.isPrivate 1 [])
          ∈ (createRoom (initState "d") aliceConn "r1" (some "Books")
              (some "secret")).2.2)) :=
  C7_create_room (initState "d") aliceConn "r1" (some "Books") (some "secret")
    (by decide)

lemma leaveCurrent_spec (s : ServerState) (client : Conn) {aId : String}
    {A : Room} (hcur : client.currentRoom = some aId)
    (hA : roomsGet s.rooms aId = some A) :
    (leaveCurrent s client).1 =
      { s with
        rooms :=
          roomsUpdate s.rooms { A with users := setDelete A.users client.id } } ∧
    (leaveCurrent s client).2 =
      broadcastToRoom (leaveCurrent s client).1 aId
        (.userLeft client.id client.name client.avatar
          (setDelete A.users client.id).length) none
      ++ broadcastRoomUserCount (leaveCurrent s client).1 aId := by
  simp only [leaveCurrent, hcur, hA]
  exact ⟨trivial, trivial⟩

/-- C4: a connection that is in room A (currentRoom = A and a member of A's
member set) and successfully joins a different room B ends with
currentRoom = B, its identity a member of B and no longer of A, and A's
member count decreased by exactly one; the user-left notice and the updated
member-count broadcast to A are emitted before all join events, so the
removal from A happens before the addition to B (and currentRoom, a single
optional field, records at most one room at every instant). -/
theorem C4_room_switch (s : ServerState) (client : Conn) (aId bId : String)
    (pw : Option String) (A B : Room)
    (hA : roomsGet s.rooms aId = some A) (hB : roomsGet s.rooms bId = some B)
    (hcur : client.currentRoom = some aId) (hne : aId ≠ bId)
    (hmem : client.id ∈ A.users) (hndA : A.users.Nodup)
    (hgate : ¬(B.isPrivate = true ∧ B.password ≠ pw)) :
    (joinRoom s client bId pw).2.1.currentRoom = some bId ∧
    (∃ B', roomsGet (joinRoom s client bId pw).1.rooms bId = some B' ∧
      client.id ∈ B'.users) ∧
    (∃ A', roomsGet (joinRoom s client bId pw).1.rooms aId = some A' ∧
      client.id ∉ A'.users ∧ A'.users.length + 1 = A.users.length) ∧
    (∃ evJoin, (joinRoom s client bId pw).2.2 =
      (broadcastToRoom (leaveCurrent s client).1 aId
          (.userLeft client.id client.name client.avatar
            (setDelete A.users client.id).length) none
        ++ broadcastRoomUserCount (leaveCurrent s client).1 aId) ++ evJoin ∧
      (client.id, OutEvent.roomJoined bId B.name B.creatorId
          (displayCreatorName B) B.isPrivate
          (setAdd B.users client.id).length (sliceLast B.history 50))
        ∈ evJoin) := by
  have hAid : A.id = aId := roomsGet_eq_some_id hA
  have hBid : B.id = bId := roomsGet_eq_some_id hB
  subst hAid
  subst hBid
  rcases leaveCurrent_spec s client hcur hA with ⟨hs1, hev1⟩
  have hlookB : roomsGet (leaveCurrent s client).1.rooms B.id = some B := by
    rw [hs1]
    show roomsGet (roomsUpdate s.rooms
      { A with users := setDelete A.users client.id }) B.id = some B
    rw [roomsGet_update_ne]
    · exact hB
    · show A.id ≠ B.id
      exact hne
  rcases joinRoom_success s client B.id pw B hB hgate with
    ⟨roomA, hA2, _hAeq2, hEq⟩
  have hroomA : roomA = B := by
    rw [hlookB] at hA2
    exact ((Option.some.injEq _ _).mp hA2).symm
  subst hroomA
  rw [hEq]
  refine ⟨rfl, ?_, ?_, ?_⟩
  · refine ⟨{ roomA with users := setAdd roomA.users client.id }, ?_,
      mem_setAdd_self _ _⟩
    rw [(doJoin_state _ client roomA).1]
    have hx : roomsGet (leaveCurrent s client).1.rooms
        ({ roomA with users := setAdd roomA.users client.id } : Room).id
        = some roomA := hlookB
    exact roomsGet_update_self hx
  · refine ⟨{ A with users := setDelete A.users client.id }, ?_, ?_, ?_⟩
    · rw [(doJoin_state _ client roomA).1]
      rw [roomsGet_update_ne]
      · rw [hs1]
        show roomsGet (roomsUpdate s.rooms
          { A with users := setDelete A.users client.id }) A.id = some _
        exact roomsGet_update_self hA
      · show roomA.id ≠ A.id
        exact Ne.symm hne
    · exact not_mem_setDelete _ _
    · exact setDelete_length hndA hmem
  · refine ⟨(doJoin (leaveCurrent s client).1 client roomA).2.2, ?_, ?_⟩
    · rw [hev1]
    · rw [doJoin_events]
      apply List.mem_append_left
      apply List.mem_append_right
      exact List.mem_singleton.mpr rfl

/-- C4 witness: bob2 switches from roomA0 to histRoom. -/
theorem C4_room_switch_witness :
    (joinRoom sSwitch bob2Conn "r3" none).2.1.currentRoom = some "r3" ∧
    (∃ B', roomsGet (joinRoom sSwitch bob2Conn "r3" none).1.rooms "r3"
        = some B' ∧ "bob2" ∈ B'.users) ∧
    (∃ A', roomsGet (joinRoom sSwitch bob2Conn "r3" none).1.rooms "rA"
        = some A' ∧ "bob2" ∉ A'.users ∧
        A'.users.length + 1 = roomA0.users.length) ∧
    (∃ evJoin, (joinRoom sSwitch bob2Conn "r3" none).2.2 =
      (broadcastToRoom (leaveCurrent sSwitch bob2Conn).1 "rA"
          (.userLeft "bob2" "Bob" "av"
            (setDelete roomA0.users "bob2").length) none
        ++ broadcastRoomUserCount (leaveCurrent sSwitch bob2Conn).1 "rA")
        ++ evJoin ∧
      ("bob2", OutEvent.roomJoined "r3" histRoom.name histRoom.creatorId
          (displayCreatorName histRoom) histRoom.isPrivate
          (setAdd histRoom.users "bob2").length
          (sliceLast histRoom.history 50)) ∈ evJoin) :=
  C4_room_switch sSwitch bob2Conn "rA" "r3" none roomA0 histRoom
    (by decide) (by decide) (by decide) (by decide) (by decide) (by decide)
    (by decide)

lemma goodState_members_registered {s : ServerState} (hs : GoodState s) :
    MembersRegistered s := by
  intro r hr u hu
  rcases hs.2.2.2 r hr u hu with ⟨c, hc, hcu, _⟩
  exact ⟨c, hc, hcu⟩

lemma clientsGet_none_forall {cs : List Conn} {k : String}
    (h : clientsGet cs k = none) : ∀ c ∈ cs, c.id ≠ k := by
  intro c hc
  have := List.find?_eq_none.mp h c hc
  simpa using this

lemma roomsGet_none_forall {rs : List Room} {k : String}
    (h : roomsGet rs k = none) : ∀ r ∈ rs, r.id ≠ k := by
  intro r hr
  have := List.find?_eq_none.mp h r hr
  simpa using this

lemma clientsSet_of_fresh {cs : List Conn} {c : Conn}
    (h : clientsGet cs c.id = none) : clientsSet cs c = cs ++ [c] := by
  unfold clientsSet
  rw [if_neg]
  intro hb
  have := clientsGet_isSome_iff_any cs c.id
  rw [h, hb] at this
  simp at this

lemma leaveCurrent_eq_none (s : ServerState) (client : Conn)
    (h : client.currentRoom = none) : leaveCurrent s client = (s, []) := by
  simp [leaveCurrent, h]

lemma leaveCurrent_eq_dangling (s : ServerState) (client : Conn)
    {curId : String} (h : client.currentRoom = some curId)
    (hr : roomsGet s.rooms curId = none) : leaveCurrent s client = (s, []) := by
  simp [leaveCurrent, h, hr]

lemma leaveCurrent_good (s : ServerState) (client : Conn) (hs : GoodState s) :
    GoodState (leaveCurrent s client).1 := by
  obtain ⟨h1, h2, h3, h4⟩ := hs
  cases hcc : client.currentRoom with
  | none =>
    rw [leaveCurrent_eq_none s client hcc]
    exact ⟨h1, h2, h3, h4⟩
  | some curId =>
    cases hrc : roomsGet s.rooms curId with
    | none =>
      rw [leaveCurrent_eq_dangling s client hcc hrc]
      exact ⟨h1, h2, h3, h4⟩
    | some cur =>
      rcases leaveCurrent_spec s client hcc hrc with ⟨hs1, _⟩
      rw [hs1]
      refine ⟨h1, ?_, ?_, ?_⟩
      · show ((roomsUpdate s.rooms
          { cur with users := setDelete cur.users client.id }).map Room.id).Nodup
        rw [roomsUpdate_map_id]
        exact h2
      · intro r hrm
        rcases mem_roomsUpdate h2 hrm with ⟨rfl, _⟩ | ⟨hmem, _⟩
        · exact setDelete_nodup (h3 cur (roomsGet_mem hrc))
        · exact h3 r hmem
      · intro r hrm u hu
        rcases mem_roomsUpdate h2 hrm with ⟨rfl, _⟩ | ⟨hmem, _⟩
        · rcases mem_setDelete hu with ⟨hu1, _⟩
          rcases h4 cur (roomsGet_mem hrc) u hu1 with ⟨c, hcm, hcid, hccur⟩
          exact ⟨c, hcm, hcid, hccur⟩
        · exact h4 r hmem u hu

lemma after_leave_nomem (s : ServerState) (client : Conn) (hs : GoodState s)
    (hc : clientsGet s.clients client.id = some client) :
    ∀ r ∈ (leaveCurrent s client).1.rooms, client.id ∉ r.users := by
  obtain ⟨h1, h2, h3, h4⟩ := hs
  cases hcc : client.currentRoom with
  | none =>
    rw [leaveCurrent_eq_none s client hcc]
    intro r hr hmem
    rcases h4 r hr client.id hmem with ⟨c, hcm, hcid, hccur⟩
    have hceq : c = client := conn_unique h1 hcm (clientsGet_mem hc) hcid
    rw [hceq, hcc] at hccur
    cases hccur
  | some curId =>
    cases hrc : roomsGet s.rooms curId with
    | none =>
      rw [leaveCurrent_eq_dangling s client hcc hrc]
      intro r hr hmem
      rcases h4 r hr client.id hmem with ⟨c, hcm, hcid, hccur⟩
      have hceq : c = client := conn_unique h1 hcm (clientsGet_mem hc) hcid
      rw [hceq, hcc] at hccur
      have hrid : curId = r.id := (Option.some.injEq _ _).mp hccur
      exact roomsGet_none_forall hrc r hr hrid.symm
    | some cur =>
      rcases leaveCurrent_spec s client hcc hrc with ⟨hs1, _⟩
      rw [hs1]
      intro r hr hmem
      rcases mem_roomsUpdate h2 hr with ⟨rfl, _⟩ | ⟨hmem2, hne2⟩
      · exact not_mem_setDelete _ _ hmem
      · rcases h4 r hmem2 client.id hmem with ⟨c, hcm, hcid, hccur⟩
        have hceq : c = client := conn_unique h1 hcm (clientsGet_mem hc) hcid
        rw [hceq, hcc] at hccur
        have hrid : curId = r.id := (Option.some.injEq _ _).mp hccur
        have hcurid : cur.id = curId := roomsGet_eq_some_id hrc
        apply hne2
        show r.id = ({ cur with users := setDelete cur.users client.id } : Room).id
        rw [← hrid]
        exact hcurid.symm

lemma doJoin_good (s : ServerState) (client : Conn) (room : Room)
    (hs : GoodState s)
    (hroom : roomsGet s.rooms room.id = some room)
    (hclient : clientsGet s.clients client.id = some client)
    (hnomem : ∀ r ∈ s.rooms, client.id ∉ r.users) :
    GoodState (doJoin s client room).1 := by
  obtain ⟨h1, h2, h3, h4⟩ := hs
  refine ⟨?_, ?_, ?_, ?_⟩
  · show ((clientsUpdate s.clients
      { client with currentRoom := some room.id }).map Conn.id).Nodup
    rw [clientsUpdate_map_id]
    exact h1
  · show ((roomsUpdate s.rooms
      { room with users := setAdd room.users client.id }).map Room.id).Nodup
    rw [roomsUpdate_map_id]
    exact h2
  · intro r hrm
    rcases mem_roomsUpdate h2 hrm with ⟨rfl, _⟩ | ⟨hmem, _⟩
    · exact setAdd_nodup (h3 room (roomsGet_mem hroom))
    · exact h3 r hmem
  · intro r hrm u hu
    rcases mem_roomsUpdate h2 hrm with ⟨rfl, _⟩ | ⟨hmem, hne⟩
    · rcases mem_setAdd hu with hu1 | rfl
      · have hune : u ≠ client.id := by
          intro he
          exact hnomem room (roomsGet_mem hroom) (he ▸ hu1)
        rcases h4 room (roomsGet_mem hroom) u hu1 with ⟨c, hcm, hcid, hccur⟩
        refine ⟨c, ?_, hcid, hccur⟩
        exact mem_clientsUpdate_of_ne hcm (by rw [hcid]; exact hune)
      · refine ⟨{ client with currentRoom := some room.id }, ?_, rfl, rfl⟩
        exact mem_clientsUpdate_self _ (clientsGet_mem hclient) rfl
    · have hune : u ≠ client.id := by
        intro he
        exact hnomem r hmem (he ▸ hu)
      rcases h4 r hmem u hu with ⟨c, hcm, hcid, hccur⟩
      refine ⟨c, ?_, hcid, hccur⟩
      exact mem_clientsUpdate_of_ne hcm (by rw [hcid]; exact hune)

lemma joinRoom_good (s : ServerState) (client : Conn) (rid : String)
    (pw : Option String) (hs : GoodState s)
    (hclient : clientsGet s.clients client.id = some client) :
    GoodState (joinRoom s client rid pw).1 := by
  cases hr : roomsGet s.rooms rid with
  | none =>
    simp only [joinRoom, hr]
    exact hs
  | some room =>
    by_cases hgate : room.isPrivate = true ∧ room.password ≠ pw
    · simp only [joinRoom, hr]
      rw [if_pos hgate]
      exact hs
    · rcases joinRoom_success s client rid pw room hr hgate with
        ⟨roomA, hA, _hAeq, hEq⟩
      rw [hEq]
      have hAid : roomA.id = rid := roomsGet_eq_some_id hA
      apply doJoin_good
      · exact leaveCurrent_good s client hs
      · rw [hAid]
        exact hA
      · rw [leaveCurrent_clients]
        exact hclient
      · exact after_leave_nomem s client hs hclient

lemma forceRemove_fold_map_id (rid : String) (l : List String)
    (acc : ServerState × List Delivery) :
    (l.foldl (forceRemoveStep rid) acc).1.clients.map Conn.id
      = acc.1.clients.map Conn.id := by
  induction l generalizing acc with
  | nil => rfl
  | cons a t ih =>
    rw [List.foldl_cons, ih]
    unfold forceRemoveStep
    cases hg : clientsGet acc.1.clients a with
    | none => rfl
    | some uc => exact clientsUpdate_map_id _ _

lemma forceRemove_fold_lookup (rid : String) (l : List String)
    (acc : ServerState × List Delivery) (k : String) (hk : k ∉ l) :
    clientsGet (l.foldl (forceRemoveStep rid) acc).1.clients k
      = clientsGet acc.1.clients k := by
  induction l generalizing acc with
  | nil => rfl
  | cons a t ih =>
    rw [List.foldl_cons, ih _ (fun h => hk (List.mem_cons_of_mem a h))]
    unfold forceRemoveStep
    cases hg : clientsGet acc.1.clients a with
    | none => rfl
    | some uc =>
      have huca : uc.id = a := clientsGet_eq_some_id hg
      apply clientsGet_update_ne
      show uc.id ≠ k
      rw [huca]
      intro he
      exact hk (he ▸ List.mem_cons_self a t)

lemma deleteRoom_good (s : ServerState) (client : Conn) (rid : String)
    (claimed : Option String) (hs : GoodState s) :
    GoodState (deleteRoom s client rid claimed).1 := by
  obtain ⟨h1, h2, h3, h4⟩ := hs
  cases hr : roomsGet s.rooms rid with
  | none =>
    simp only [deleteRoom, hr]
    exact ⟨h1, h2, h3, h4⟩
  | some room =>
    by_cases hg : room.creatorId ≠ claimed ∨ room.creatorId ≠ some client.id
    · simp only [deleteRoom, hr]
      rw [if_pos hg]
      exact ⟨h1, h2, h3, h4⟩
    · by_cases hdef : room.id = s.defaultRoomId
      · simp only [deleteRoom, hr]
        rw [if_neg hg, if_pos hdef]
        exact ⟨h1, h2, h3, h4⟩
      · have hst : (deleteRoom s client rid claimed).1 =
            { (room.users.foldl (forceRemoveStep room.id)
                ((s, []) : ServerState × List Delivery)).1 with
              rooms := roomsDelete
                (room.users.foldl (forceRemoveStep room.id)
                  ((s, []) : ServerState × List Delivery)).1.rooms room.id } := by
          simp only [deleteRoom, hr]
          rw [if_neg hg, if_neg hdef]
        rw [hst]
        have hfr : (room.users.foldl (forceRemoveStep room.id)
            ((s, []) : ServerState × List Delivery)).1.rooms = s.rooms :=
          forceRemove_fold_rooms _ _ _
        refine ⟨?_, ?_, ?_, ?_⟩
        · show ((room.users.foldl (forceRemoveStep room.id)
            ((s, []) : ServerState × List Delivery)).1.clients.map Conn.id).Nodup
          rw [forceRemove_fold_map_id]
          exact h1
        · show ((roomsDelete (room.users.foldl (forceRemoveStep room.id)
            ((s, []) : ServerState × List Delivery)).1.rooms room.id).map
              Room.id).Nodup
          rw [hfr]
          exact List.Nodup.sublist ((List.filter_sublist _).map Room.id) h2
        · intro r hrm
          have hrm2 : r ∈ roomsDelete s.rooms room.id := by
            rw [← hfr]
            exact hrm
          exact h3 r (List.mem_of_mem_filter hrm2)
        · intro r hrm u hu
          have hrm2 : r ∈ roomsDelete s.rooms room.id := by
            rw [← hfr]
            exact hrm
          have hrs : r ∈ s.rooms := List.mem_of_mem_filter hrm2
          have hne2 : r.id ≠ room.id := by
            have := List.of_mem_filter hrm2
            simpa using this
          have hnotin : u ∉ room.users := by
            intro hin
            rcases h4 r hrs u hu with ⟨c, hcm, hcid, hccur⟩
            rcases h4 room (roomsGet_mem hr) u hin with ⟨c2, hcm2, hcid2, hccur2⟩
            have hceq : c = c2 :=
              conn_unique h1 hcm hcm2 (by rw [hcid, hcid2])
            rw [hceq, hccur2] at hccur
            exact hne2 ((Option.some.injEq _ _).mp hccur).symm
          rcases h4 r hrs u hu with ⟨c, hcm, hcid, hccur⟩
          have hlook : clientsGet s.clients u = some c := by
            rw [← hcid]
            exact clientsGet_of_mem h1 hcm
          have hlook2 : clientsGet (room.users.foldl (forceRemoveStep room.id)
              ((s, []) : ServerState × List Delivery)).1.clients u = some c := by
            rw [forceRemove_fold_lookup _ _ _ _ hnotin]
            exact hlook
          exact ⟨c, clientsGet_mem hlook2, hcid, hccur⟩

lemma renameRoom_good (s : ServerState) (client : Conn) (rid : String)
    (claimed : Option String) (newName : Option String) (hs : GoodState s) :
    GoodState (renameRoom s client rid claimed newName).1 := by
  obtain ⟨h1, h2, h3, h4⟩ := hs
  cases hr : roomsGet s.rooms rid with
  | none =>
    simp only [renameRoom, hr]
    exact ⟨h1, h2, h3, h4⟩
  | some room =>
    by_cases hg : room.creatorId ≠ claimed ∨ room.creatorId ≠ some client.id
    · simp only [renameRoom, hr]
      rw [if_pos hg]
      exact ⟨h1, h2, h3, h4⟩
    · by_cases hn : jsTrim (jsOr newName "") = ""
      · simp only [renameRoom, hr]
        rw [if_neg hg, if_pos hn]
        exact ⟨h1, h2, h3, h4⟩
      · simp only [renameRoom, hr]
        rw [if_neg hg, if_neg hn]
        refine ⟨h1, ?_, ?_, ?_⟩
        · show ((roomsUpdate s.rooms
            { room with
              name := jsTrim (jsOr newName ""),
              creatorName := client.name }).map Room.id).Nodup
          rw [roomsUpdate_map_id]
          exact h2
        · intro r hrm
          rcases mem_roomsUpdate h2 hrm with ⟨rfl, _⟩ | ⟨hmem, _⟩
          · exact h3 room (roomsGet_mem hr)
          · exact h3 r hmem
        · intro r hrm u hu
          rcases mem_roomsUpdate h2 hrm with ⟨rfl, _⟩ | ⟨hmem, _⟩
          · exact h4 room (roomsGet_mem hr) u hu
          · exact h4 r hmem u hu

lemma sendMessage_good (s : ServerState) (client : Conn)
    (msgId : Option String) (freshId content : String) (ts : Nat)
    (hs : GoodState s) :
    GoodState (sendMessage s client msgId freshId content ts).1 := by
  obtain ⟨h1, h2, h3, h4⟩ := hs
  cases hcc : client.currentRoom with
  | none =>
    simp only [sendMessage, hcc]
    exact ⟨h1, h2, h3, h4⟩
  | some curId =>
    cases hr : roomsGet s.rooms curId with
    | none =>
      simp only [sendMessage, hcc, hr]
      exact ⟨h1, h2, h3, h4⟩
    | some room =>
      simp only [sendMessage, hcc, hr]
      refine ⟨h1, ?_, ?_, ?_⟩
      · show ((roomsUpdate s.rooms
          { room with history := room.history
              ++ [textMessage client room msgId freshId content ts] }).map
            Room.id).Nodup
        rw [roomsUpdate_map_id]
        exact h2
      · intro r hrm
        rcases mem_roomsUpdate h2 hrm with ⟨rfl, _⟩ | ⟨hmem, _⟩
        · exact h3 room (roomsGet_mem hr)
        · exact h3 r hmem
      · intro r hrm u hu
        rcases mem_roomsUpdate h2 hrm with ⟨rfl, _⟩ | ⟨hmem, _⟩
        · exact h4 room (roomsGet_mem hr) u hu
        · exact h4 r hmem u hu

lemma sendImage_good (s : ServerState) (client : Conn)
    (freshId content : String) (ts : Nat) (hs : GoodState s) :
    GoodState (sendImage s client freshId content ts).1 := by
  obtain ⟨h1, h2, h3, h4⟩ := hs
  cases hcc : client.currentRoom with
  | none =>
    simp only [sendImage, hcc]
    exact ⟨h1, h2, h3, h4⟩
  | some curId =>
    cases hr : roomsGet s.rooms curId with
    | none =>
      simp only [sendImage, hcc, hr]
      exact ⟨h1, h2, h3, h4⟩
    | some room =>
      simp only [sendImage, hcc, hr]
      refine ⟨h1, ?_, ?_, ?_⟩
      · show ((roomsUpdate s.rooms
          { room with history := room.history
              ++ [imageMessage client room freshId content ts] }).map
            Room.id).Nodup
        rw [roomsUpdate_map_id]
        exact h2
      · intro r hrm
        rcases mem_roomsUpdate h2 hrm with ⟨rfl, _⟩ | ⟨hmem, _⟩
        · exact h3 room (roomsGet_mem hr)
        · exact h3 r hmem
      · intro r hrm u hu
        rcases mem_roomsUpdate h2 hrm with ⟨rfl, _⟩ | ⟨hmem, _⟩
        · exact h4 room (roomsGet_mem hr) u hu
        · exact h4 r hmem u hu

lemma handleClose_good (s : ServerState) (client : Conn) (hs : GoodState s)
    (hclient : clientsGet s.clients client.id = some client) :
    GoodState (handleClose s client).1 := by
  have hnomem := after_leave_nomem s client hs hclient
  obtain ⟨g1, g2, g3, g4⟩ := leaveCurrent_good s client hs
  refine ⟨?_, g2, g3, ?_⟩
  · show ((clientsDelete (leaveCurrent s client).1.clients
      client.id).map Conn.id).Nodup
    exact List.Nodup.sublist ((List.filter_sublist _).map Conn.id) g1
  · intro r hr u hu
    rcases g4 r hr u hu with ⟨c, hcm, hcid, hccur⟩
    have hune : u ≠ client.id := fun he => hnomem r hr (he ▸ hu)
    refine ⟨c, ?_, hcid, hccur⟩
    exact List.mem_filter.mpr ⟨hcm, by simp [hcid, hune]⟩

lemma connect_good (s : ServerState) (tempId : String) (hs : GoodState s)
    (hfresh : clientsGet s.clients tempId = none) :
    GoodState { s with clients := clientsSet s.clients (freshConn tempId) } := by
  obtain ⟨h1, h2, h3, h4⟩ := hs
  have hset : clientsSet s.clients (freshConn tempId)
      = s.clients ++ [freshConn tempId] := clientsSet_of_fresh hfresh
  refine ⟨?_, h2, h3, ?_⟩
  · show ((clientsSet s.clients (freshConn tempId)).map Conn.id).Nodup
    rw [hset, List.map_append, List.nodup_append]
    refine ⟨h1, by simp, ?_⟩
    intro a ha hb
    rcases List.mem_map.mp ha with ⟨c', hc', hid⟩
    have hb2 : a = (freshConn tempId).id := by simpa using hb
    exact clientsGet_none_forall hfresh c' hc' (hid.trans hb2)
  · intro r hr u hu
    rcases h4 r hr u hu with ⟨c, hcm, hcid, hccur⟩
    refine ⟨c, ?_, hcid, hccur⟩
    show c ∈ clientsSet s.clients (freshConn tempId)
    rw [hset]
    exact List.mem_append_left _ hcm

lemma handleUser_good (s : ServerState) (client : Conn)
    (dataId : Option String) (dataName dataAvatar : String) (hs : GoodState s)
    (hclient : clientsGet s.clients client.id = some client)
    (heff : effId client dataId = client.id) :
    GoodState (handleUser s client dataId dataName dataAvatar).1 := by
  obtain ⟨h1, h2, h3, h4⟩ := hs
  simp only [handleUser, if_pos heff.symm]
  refine ⟨?_, h2, h3, ?_⟩
  · show ((clientsUpdate s.clients
      { client with
        id := effId client dataId, name := dataName, avatar := dataAvatar,
        isVerified := true }).map Conn.id).Nodup
    rw [clientsUpdate_map_id]
    exact h1
  · intro r hr u hu
    rcases h4 r hr u hu with ⟨c, hcm, hcid, hccur⟩
    by_cases hcc : c.id = client.id
    · have hceq : c = client := conn_unique h1 hcm (clientsGet_mem hclient) hcc
      refine ⟨{ client with
        id := effId client dataId, name := dataName, avatar := dataAvatar,
        isVerified := true }, ?_, ?_, ?_⟩
      · exact mem_clientsUpdate_self _ (clientsGet_mem hclient) heff.symm
      · show effId client dataId = u
        rw [heff, ← hcid, hceq]
      · show client.currentRoom = some r.id
        rw [← hceq]
        exact hccur
    · refine ⟨c, ?_, hcid, hccur⟩
      refine mem_clientsUpdate_of_ne hcm ?_
      show c.id ≠ effId client dataId
      intro he
      exact hcc (he.trans heff)

lemma createRoom_good (s : ServerState) (client : Conn) (rid : String)
    (nameArg pw : Option String) (hs : GoodState s)
    (hclient : clientsGet s.clients client.id = some client)
    (hfresh : roomsGet s.rooms rid = none) :
    GoodState (createRoom s client rid nameArg pw).1 := by
  cases hv : client.isVerified with
  | false =>
    have hcr : (createRoom s client rid nameArg pw).1 = s := by
      unfold createRoom
      rw [hv]
      rfl
    rw [hcr]
    exact hs
  | true =>
    obtain ⟨h1, h2, h3, h4⟩ := hs
    have hcr : (createRoom s client rid nameArg pw).1 =
        (joinRoom { s with
          rooms := roomsSet s.rooms (newRoomOf client rid nameArg pw) }
          client rid pw).1 := by
      unfold createRoom
      rw [hv]
      rfl
    rw [hcr]
    have hset : roomsSet s.rooms (newRoomOf client rid nameArg pw)
        = s.rooms ++ [newRoomOf client rid nameArg pw] :=
      roomsSet_of_fresh hfresh
    apply joinRoom_good
    · refine ⟨h1, ?_, ?_, ?_⟩
      · show ((roomsSet s.rooms (newRoomOf client rid nameArg pw)).map
          Room.id).Nodup
        rw [hset, List.map_append, List.nodup_append]
        refine ⟨h2, by simp, ?_⟩
        intro a ha hb
        rcases List.mem_map.mp ha with ⟨r', hr', hid⟩
        have hb2 : a = (newRoomOf client rid nameArg pw).id := by simpa using hb
        exact roomsGet_none_forall hfresh r' hr' (hid.trans hb2)
      · intro r hrm
        have hrm2 : r ∈ s.rooms ++ [newRoomOf client rid nameArg pw] := by
          rw [← hset]
          exact hrm
        rcases List.mem_append.mp hrm2 with hm | hm
        · exact h3 r hm
        · rw [List.mem_singleton.mp hm]
          exact List.nodup_nil
      · intro r hrm u hu
        have hrm2 : r ∈ s.rooms ++ [newRoomOf client rid nameArg pw] := by
          rw [← hset]
          exact hrm
        rcases List.mem_append.mp hrm2 with hm | hm
        · exact h4 r hm u hu
        · rw [List.mem_singleton.mp hm] at hu
          cases hu
    · exact hclient

/-- C9 counterexample: from the fresh server, the event sequence connect,
identity-claim "alice", join the default room, then rekey to "bob" leaves
"alice" in the default room's member set while the registry only holds
"bob": the rekey operation breaks the members-are-registered invariant. -/
theorem C9_counterexample :
    ¬ MembersRegistered (run (initState "d")
      [.connect "t1", .userEv "t1" (some "alice") "Alice" "av",
       .joinEv "alice" "d" none,
       .userEv "alice" (some "bob") "Bob" "av"]) := by
  decide

/-- C9 (amended): every operation except an identity-changing rekey
preserves membership coherence - registry keys, room ids and member sets
duplicate-free, and every member id backed by a registered connection whose
currentRoom is that room - and hence the subset property that every room's
member set contains only registered identities.  stepOK demands the
server-generated ids of connect and create-room to be fresh and the user
event not to change the connection's identity; the rekey case is excluded,
as the counterexample shows it breaks the invariant. -/
theorem C9_members_subset (s : ServerState) (e : InEvent)
    (hs : GoodState s) (hok : stepOK s e) :
    GoodState (step s e).1 ∧ MembersRegistered (step s e).1 := by
  have hgood : GoodState (step s e).1 := by
    cases e with
    | connect tempId =>
      simp only [step]
      exact connect_good s tempId hs hok
    | userEv cid dataId n a =>
      cases hc : clientsGet s.clients cid with
      | none =>
        simp only [step, hc]
        exact hs
      | some client =>
        simp only [step, hc]
        have hcid : client.id = cid := clientsGet_eq_some_id hc
        exact handleUser_good s client dataId n a hs
          (by rw [hcid]; exact hc) (hok client hc)
    | createEv cid rid nm pw =>
      cases hc : clientsGet s.clients cid with
      | none =>
        simp only [step, hc]
        exact hs
      | some client =>
        simp only [step, hc]
        have hcid : client.id = cid := clientsGet_eq_some_id hc
        exact createRoom_good s client rid nm pw hs
          (by rw [hcid]; exact hc) hok.1
    | joinEv cid rid pw =>
      cases hc : clientsGet s.clients cid with
      | none =>
        simp only [step, hc]
        exact hs
      | some client =>
        simp only [step, hc]
        have hcid : client.id = cid := clientsGet_eq_some_id hc
        exact joinRoom_good s client rid pw hs (by rw [hcid]; exact hc)
    | msgEv cid mid fid content ts =>
      cases hc : clientsGet s.clients cid with
      | none =>
        simp only [step, hc]
        exact hs
      | some client =>
        simp only [step, hc]
        exact sendMessage_good s client mid fid content ts hs
    | imgEv cid fid content ts =>
      cases hc : clientsGet s.clients cid with
      | none =>
        simp only [step, hc]
        exact hs
      | some client =>
        simp only [step, hc]
        exact sendImage_good s client fid content ts hs
    | deleteEv cid rid claimed =>
      cases hc : clientsGet s.clients cid with
      | none =>
        simp only [step, hc]
        exact hs
      | some client =>
        simp only [step, hc]
        exact deleteRoom_good s client rid claimed hs
    | renameEv cid rid claimed newName =>
      cases hc : clientsGet s.clients cid with
      | none =>
        simp only [step, hc]
        exact hs
      | some client =>
        simp only [step, hc]
        exact renameRoom_good s client rid claimed newName hs
    | countEv cid =>
      cases hc : clientsGet s.clients cid with
      | none =>
        simp only [step, hc]
        exact hs
      | some client =>
        simp only [step, hc]
        exact hs
    | closeEv cid =>
      cases hc : clientsGet s.clients cid with
      | none =>
        simp only [step, hc]
        exact hs
      | some client =>
        simp only [step, hc]
        have hcid : client.id = cid := clientsGet_eq_some_id hc
        exact handleClose_good s client hs (by rw [hcid]; exact hc)
  exact ⟨hgood, goodState_members_registered hgood⟩

/-- C9 witness: a join event processed in a coherent two-room state. -/
theorem C9_members_subset_witness :
    GoodState (step sSwitch (.joinEv "bob2" "r3" none)).1 ∧
    MembersRegistered (step sSwitch (.joinEv "bob2" "r3" none)).1 :=
  C9_members_subset sSwitch (.joinEv "bob2" "r3" none) (by decide) (by decide)

end FreeChatRoom
